import Mathlib

/-!
Verification of `uvm_common.h`, the common header of the NVIDIA UVM kernel
module (driver 390.48, `kernel/nvidia-uvm/uvm_common.h`).

The file is a shallow embedding of the arithmetic helpers and of the spin-loop
macros of that header, followed by theorems about them.

Machine integers are natural numbers; every C operation on an unsigned type of
`w` bits is reduced modulo `2 ^ w` where the C operation wraps. Functions that
the header only declares, the clock and the caller's loop condition are given
by an environment.
-/

namespace UvmCommon

/-! ## Fixed-width unsigned arithmetic -/

/-- Conversion of a value to an unsigned type of `w` bits. -/
def wrap (w v : Nat) : Nat := v % 2 ^ w

/-- The C expression `x + y` at an unsigned type of `w` bits. -/
def uadd (w x y : Nat) : Nat := (wrap w x + wrap w y) % 2 ^ w

/-- The C expression `x - y` at an unsigned type of `w` bits. -/
def usub (w x y : Nat) : Nat := (wrap w x + (2 ^ w - wrap w y)) % 2 ^ w

/-- The C expression `~x` at an unsigned type of `w` bits. -/
def unot (w x : Nat) : Nat := 2 ^ w - 1 - wrap w x

/-- Modelled from the spec: the Linux kernel's `fls` / `fls64` ("find last
set"), on which its `ilog2` rests and which is not part of this source: one plus
the position of the most significant set bit among the low `w` bits of `x`, and
`0` when `x = 0`. -/
def fls : Nat → Nat → Nat
  | 0, _ => 0
  | w + 1, x => if x = 0 then 0 else fls w (x / 2) + 1

/-- Modelled from the spec: the Linux kernel's `ilog2(n)`, which is not part
of this source and which the spec calls `log2(denominatorPow2)`. On a run-time
operand of `w` bits it is `fls(n) - 1`, the floor of the base-two logarithm of
`n` for `n > 0`. This is its value as a natural number, meant for `n > 0`
only: at `n = 0` the kernel's value is `-1`, for which see `ilog2_int`. -/
def ilog2 (w n : Nat) : Nat := fls w (wrap w n) - 1

/-! ## Alignment and division helpers -/

/-- Macro `UVM_ALIGN_DOWN(x, a)`, where `typeof(x)` is an unsigned type of `w`
bits (at least as wide as `int`, so that no integer promotion takes place):
`typeof(x) _a = a; UVM_ASSERT(is_power_of_2(_a)); (x) & ~(_a - 1);`. This is
the value of the statement expression, its last expression; the assertion
before it does not enter the value. -/
def UVM_ALIGN_DOWN (w x a : Nat) : Nat :=
  let _a := wrap w a
  wrap w x &&& unot w (usub w _a 1)

/-- Macro `UVM_ALIGN_UP(x, a)`, where `typeof(x)` is an unsigned type of `w`
bits (at least as wide as `int`):
`typeof(x) _a = a; UVM_ASSERT(is_power_of_2(_a)); ((x) + _a - 1) & ~(_a - 1);`.
This is the value of the statement expression, its last expression. -/
def UVM_ALIGN_UP (w x a : Nat) : Nat :=
  let _a := wrap w a
  usub w (uadd w x _a) 1 &&& unot w (usub w _a 1)

/-- Function `uvm_div_pow2_32(numerator, denominator_pow2)` on `NvU32`, its
return value for a divisor other than zero:
`return numerator >> ilog2(denominator_pow2);`. -/
def uvm_div_pow2_32 (numerator denominator_pow2 : Nat) : Nat :=
  wrap 32 (wrap 32 numerator >>> ilog2 32 denominator_pow2)

/-- Function `uvm_div_pow2_64(numerator, denominator_pow2)` on `NvU64`, its
return value for a divisor other than zero:
`return numerator >> ilog2(denominator_pow2);`. -/
def uvm_div_pow2_64 (numerator denominator_pow2 : Nat) : Nat :=
  wrap 64 (wrap 64 numerator >>> ilog2 64 denominator_pow2)

/-- Rounding `x` down to a multiple of `a` by division: `floor(x / a) * a`. -/
def align_down_by_division (x a : Nat) : Nat := x / a * a

/-- The quotient `x / a` rounded up, `ceil(x / a)`. -/
def ceil_div (x a : Nat) : Nat := if x % a = 0 then x / a else x / a + 1

/-- Rounding `x` up to a multiple of `a` by division: `ceil(x / a) * a`. -/
def align_up_by_division (x a : Nat) : Nat := ceil_div x a * a

/-! ## Range overlap and three-way comparison -/

/-- Function `uvm_ranges_overlap(a_start, a_end, b_start, b_end)` on `NvU64`,
start and end inclusive: `return a_end >= b_start && b_end >= a_start;`. -/
def uvm_ranges_overlap (a_start a_end b_start b_end : Nat) : Bool :=
  decide (a_end ≥ b_start) && decide (b_end ≥ a_start)

/-- Macro `UVM_CMP_DEFAULT(a, b)` on two operands of one integer type, whose values
are compared as integers: `-1` if `_a < _b`, else `1` if `_b < _a`, else `0`. -/
def UVM_CMP_DEFAULT (a b : Int) : Int :=
  if a < b then -1
  else if b < a then 1
  else 0

/-! ## Canonical form of a virtual address -/

/-- The conversion `(NvS64) v` of a 64-bit pattern to a signed value. -/
def toS64 (v : Nat) : Int :=
  if wrap 64 v < 2 ^ 63 then (wrap 64 v : Int) else (wrap 64 v : Int) - 2 ^ 64

/-- The conversion `(NvU64) i` of a signed value to a 64-bit pattern. -/
def toU64 (i : Int) : Nat := (i % 2 ^ 64).toNat

/-- The C expression `i << n` on `NvS64`, as the kernel is compiled: the bits
shifted out of the 64-bit pattern are dropped. -/
def s64_shl (i : Int) (n : Nat) : Int := toS64 (toU64 (i * 2 ^ n))

/-- The C expression `i >> n` on `NvS64`: an arithmetic shift. -/
def s64_shr (i : Int) (n : Nat) : Int := i >>> n

/-- Function `uvm_address_get_canonical_form(address)`. The flag `canonical_arch` is the
preprocessor condition `NVCPU_IS_X86_64 || NVCPU_IS_AARCH64`; under it
`address = (NvU64)(((NvS64) address << (64 - 49)) >> (64 - 49));`. -/
def uvm_address_get_canonical_form (canonical_arch : Bool) (address : Nat) : Nat :=
  if canonical_arch then
    toU64 (s64_shr (s64_shl (toS64 address) (64 - 49)) (64 - 49))
  else
    address

/-! ## Spin loop -/

/-- The values of `NV_STATUS` this header tells apart: `NV_OK`,
`NV_ERR_TIMEOUT_RETRY`, and any other status code. -/
inductive NV_STATUS where
  | NV_OK
  | NV_ERR_TIMEOUT_RETRY
  | NV_ERR_OTHER (code : Nat)
  deriving DecidableEq

/-- The struct `uvm_spin_loop_t`. -/
structure uvm_spin_loop_t where
  start_time_ns : Nat
  print_time_ns : Nat
  deriving DecidableEq

/-- What the spin-loop macros emit to the kernel log. -/
inductive LogEvent where
  /-- The line of `UVM_DBG_PRINT("Warning: stuck waiting for %llus\n", ...)`. -/
  | stuck_warning (seconds : Nat)
  /-- A call of `dump_stack()`. -/
  | stack_dump
  deriving DecidableEq

/-- The surroundings of one wait: what the clock, the caller's condition and
the functions that this header only declares answer at each of their uses. -/
structure SpinEnv where
  /-- The value `NV_GETTIME()` returns at its `k`-th use by the macros. -/
  NV_GETTIME : Nat → Nat
  /-- The value of the caller's expression `cond` at its `k`-th evaluation. -/
  cond : Nat → Bool
  /-- The declared function `uvm_spin_loop(spin)` at its `k`-th call: the
  status it returns and the wait state it leaves in `*spin`. -/
  uvm_spin_loop : Nat → uvm_spin_loop_t → NV_STATUS × uvm_spin_loop_t
  /-- The declared function `uvm_debug_prints_enabled()` at its `k`-th call. -/
  uvm_debug_prints_enabled : Nat → Bool

/-- The state of one wait: the caller's `uvm_spin_loop_t`, and a record of what
has happened so far. -/
structure SpinState where
  spin : uvm_spin_loop_t
  /-- Number of clock reads made by the macros. -/
  clock_reads : Nat
  /-- Number of evaluations of `cond`. -/
  cond_evals : Nat
  /-- Number of calls of `uvm_spin_loop_init`. -/
  init_calls : Nat
  /-- Number of executions of the loop body. -/
  body_runs : Nat
  /-- Number of invocations of `UVM_SPIN_LOOP`, each calling `uvm_spin_loop` once. -/
  spin_loop_calls : Nat
  /-- Number of calls of `uvm_debug_prints_enabled`. -/
  prints_queries : Nat
  /-- The kernel log, oldest entry first. -/
  log : List LogEvent
  deriving DecidableEq

/-- One use of `NV_GETTIME()`, an `NvU64`. -/
def NV_GETTIME (env : SpinEnv) (s : SpinState) : Nat × SpinState :=
  (wrap 64 (env.NV_GETTIME s.clock_reads), { s with clock_reads := s.clock_reads + 1 })

/-- One call of `uvm_debug_prints_enabled()`. -/
def uvm_debug_prints_enabled (env : SpinEnv) (s : SpinState) : Bool × SpinState :=
  (env.uvm_debug_prints_enabled s.prints_queries,
    { s with prints_queries := s.prints_queries + 1 })

/-- One evaluation of the caller's expression `cond`. -/
def eval_cond (env : SpinEnv) (s : SpinState) : Bool × SpinState :=
  (env.cond s.cond_evals, { s with cond_evals := s.cond_evals + 1 })

/-- Function `uvm_spin_loop_init(spin)`:
`NvU64 curr = NV_GETTIME(); spin->start_time_ns = curr; spin->print_time_ns = curr;`. -/
def uvm_spin_loop_init (env : SpinEnv) (s : SpinState) : SpinState :=
  let (curr, s) := NV_GETTIME env s
  let s := { s with spin := { s.spin with start_time_ns := curr } }
  let s := { s with spin := { s.spin with print_time_ns := curr } }
  { s with init_calls := s.init_calls + 1 }

/-- Macro `UVM_SPIN_LOOP(__spin)`: call `uvm_spin_loop`; if it returns
`NV_ERR_TIMEOUT_RETRY`, `UVM_DBG_PRINT` the time waited, in seconds (the print,
and the clock read among its arguments, happen only if
`uvm_debug_prints_enabled()`), then `dump_stack()` if
`uvm_debug_prints_enabled()`; the value is the status. -/
def UVM_SPIN_LOOP (env : SpinEnv) (s : SpinState) : NV_STATUS × SpinState :=
  let r := env.uvm_spin_loop s.spin_loop_calls s.spin
  let __status := r.1
  let s := { s with spin := r.2, spin_loop_calls := s.spin_loop_calls + 1 }
  if __status = NV_STATUS.NV_ERR_TIMEOUT_RETRY then
    let (print, s) := uvm_debug_prints_enabled env s
    let s :=
      if print then
        let (now, s) := NV_GETTIME env s
        { s with log := s.log ++
            [LogEvent.stuck_warning (usub 64 now s.spin.start_time_ns / (1000 * 1000 * 1000))] }
      else s
    let (dump, s) := uvm_debug_prints_enabled env s
    let s := if dump then { s with log := s.log ++ [LogEvent.stack_dump] } else s
    (__status, s)
  else
    (__status, s)

/-- The `for` loop of `UVM_SPIN_WHILE` after its init clause:
`for (; (cond); UVM_SPIN_LOOP(spin)) body`. The body is the caller's statement;
its executions are counted, and what it does to the condition is part of
`env.cond`. At most `fuel` evaluations of `cond` are made; `none` when they do
not suffice for the loop to end. -/
def spin_for (env : SpinEnv) : Nat → SpinState → Option SpinState
  | 0, _ => none
  | fuel + 1, s =>
    let (c, s) := eval_cond env s
    if c then
      let s := { s with body_runs := s.body_runs + 1 }
      let (_, s) := UVM_SPIN_LOOP env s
      spin_for env fuel s
    else
      some s

/-- Macro `UVM_SPIN_WHILE(cond, spin) body`:
`if (cond) for (uvm_spin_loop_init(spin); (cond); UVM_SPIN_LOOP(spin)) body`. -/
def UVM_SPIN_WHILE (env : SpinEnv) (fuel : Nat) (s : SpinState) : Option SpinState :=
  let (c, s) := eval_cond env s
  if c then
    spin_for env fuel (uvm_spin_loop_init env s)
  else
    some s

/-- A sample wait: the clock advances by seven seconds at each read, the
condition holds at its first `n` evaluations and not after, `uvm_spin_loop`
reports `NV_ERR_TIMEOUT_RETRY` at every second call and leaves the wait state
as it is, and debug prints are enabled. -/
def sample_env (n : Nat) : SpinEnv where
  NV_GETTIME := fun k => 7000000000 * (k + 1)
  cond := fun k => decide (k < n)
  uvm_spin_loop := fun k spin =>
    (if k % 2 = 1 then NV_STATUS.NV_ERR_TIMEOUT_RETRY else NV_STATUS.NV_OK, spin)
  uvm_debug_prints_enabled := fun _ => true

/-- A sample initial state: an uninitialised wait state holding `5` and `6`,
and nothing recorded yet. -/
def sample_state : SpinState where
  spin := { start_time_ns := 5, print_time_ns := 6 }
  clock_reads := 0
  cond_evals := 0
  init_calls := 0
  body_runs := 0
  spin_loop_calls := 0
  prints_queries := 0
  log := []

/-- The wait state after `n` consecutive calls of `uvm_spin_loop`, the first of
them being call number `k`, made on the wait state `spin`. -/
def spin_after (env : SpinEnv) : Nat → Nat → uvm_spin_loop_t → uvm_spin_loop_t
  | 0, _, spin => spin
  | n + 1, k, spin => spin_after env n (k + 1) (env.uvm_spin_loop k spin).2

/-- The statuses returned by `n` consecutive calls of `uvm_spin_loop`, the first
of them being call number `k`, made on the wait state `spin`; oldest first. -/
def poll_statuses (env : SpinEnv) : Nat → Nat → uvm_spin_loop_t → List NV_STATUS
  | 0, _, _ => []
  | n + 1, k, spin =>
    (env.uvm_spin_loop k spin).1 :: poll_statuses env n (k + 1) (env.uvm_spin_loop k spin).2

/-- Modelled from the spec: the body of `uvm_spin_loop(spin)`, which this
header only declares. Given the reading `now` of the clock that the call takes:
if the time since the last report, `now - spin->print_time_ns`, exceeds the
internal threshold, `print_time_ns` is set to `now` and the status is
`NV_ERR_TIMEOUT_RETRY`; otherwise the wait state is left alone and the status
is `NV_OK`. The yield of the processor has no effect on the wait state. -/
def uvm_spin_loop_model (threshold_ns now : Nat) (spin : uvm_spin_loop_t) :
    NV_STATUS × uvm_spin_loop_t :=
  let curr := wrap 64 now
  if usub 64 curr spin.print_time_ns > threshold_ns then
    (NV_STATUS.NV_ERR_TIMEOUT_RETRY, { spin with print_time_ns := curr })
  else
    (NV_STATUS.NV_OK, spin)

/-- A simulated wait: the clock reads `t0` when the wait is initialised, the
`k`-th call of `uvm_spin_loop` follows the model with the given threshold and
takes its clock reading `interval_ns * (k + 1)` after `t0`, the condition holds
at its first `n + 1` evaluations and not after, and debug prints are off. -/
def sim_env (threshold_ns interval_ns t0 n : Nat) : SpinEnv where
  NV_GETTIME := fun _ => t0
  cond := fun k => decide (k ≤ n)
  uvm_spin_loop := fun k spin => uvm_spin_loop_model threshold_ns (t0 + interval_ns * (k + 1)) spin
  uvm_debug_prints_enabled := fun _ => false

/-! ## Cache destruction -/

/-- The memory that `kmem_cache_destroy_safe` works on: the pointer stored at
each address (`0` is `NULL`), and the arguments of the calls of the kernel's
`kmem_cache_destroy` made so far, oldest first. -/
structure CacheState where
  mem : Nat → Nat
  destroyed : List Nat

/-- Modelled from the spec: the kernel's `kmem_cache_destroy(cache)`, the
destroy operation of the object-cache allocator, which is not part of this
source; the call is recorded. -/
def kmem_cache_destroy (cache : Nat) (st : CacheState) : CacheState :=
  { st with destroyed := st.destroyed ++ [cache] }

/-- Function `kmem_cache_destroy_safe(ppCache)`:
`if (ppCache) { if (*ppCache) kmem_cache_destroy(*ppCache); *ppCache = NULL; }`. -/
def kmem_cache_destroy_safe (ppCache : Nat) (st : CacheState) : CacheState :=
  if ppCache ≠ 0 then
    let st := if st.mem ppCache ≠ 0 then kmem_cache_destroy (st.mem ppCache) st else st
    { st with mem := fun p => if p = ppCache then 0 else st.mem p }
  else
    st

/-- A sample memory: the slot at address `8` holds the handle `77`, every other
address holds `NULL`, and nothing has been destroyed. -/
def sample_cache : CacheState where
  mem := fun p => if p = 8 then 77 else 0
  destroyed := []

/-! ## Assertions -/

/-- Modelled from the spec: the Linux kernel's `is_power_of_2(n)`, which is not
part of this source and by which the spec's "power of two" is tested:
`n != 0 && ((n & (n - 1)) == 0)` on `unsigned long`, 64 bits wide on the
x86-64 target of this driver. -/
def is_power_of_2 (n : Nat) : Bool :=
  wrap 64 n != 0 && (wrap 64 n &&& usub 64 n 1) == 0

/-- What a failed assertion emits. -/
inductive DiagEvent where
  /-- The line of `UVM_ERR_PRINT("Assert failed, condition %s not true" ...)`. -/
  | assert_print
  /-- A call of `dump_stack()`. -/
  | stack_dump
  /-- A call of `on_uvm_assert()`. -/
  | hook_call
  deriving DecidableEq

/-- The record of what assertions have done so far. -/
structure DiagState where
  /-- Number of asserted expressions that were evaluated. -/
  expr_evals : Nat
  /-- Number of calls of `uvm_debug_prints_enabled`. -/
  prints_queries : Nat
  /-- Number of calls of `on_uvm_assert`. -/
  hook_calls : Nat
  /-- What was emitted, oldest entry first. -/
  log : List DiagEvent
  deriving DecidableEq

/-- How the run of an operation that carries assertions ends. -/
inductive Outcome where
  /-- The operation returned this value. -/
  | value (v : Nat)
  /-- The run went past the assertions to a shift whose count C leaves
  undefined, so that no value is stated. -/
  | undefined
  /-- The run stopped inside `on_uvm_assert()`, which did not return. -/
  | halted
  deriving DecidableEq

/-- One call of the function `on_uvm_assert()`. This header has only its
declaration `void on_uvm_assert(void);`, under the comment "NO-OP function to
break on_uvm_assert - that is just to set a breakpoint", so what the call does
is given from outside: `hook k` tells whether call number `k` returns to the
macro (the no-op of the comment) or not (a halt). The call is recorded. -/
def on_uvm_assert (hook : Nat → Bool) (d : DiagState) : Bool × DiagState :=
  (hook d.hook_calls,
    { d with hook_calls := d.hook_calls + 1, log := d.log ++ [DiagEvent.hook_call] })

/-- Macro `UVM_ASSERT(expr)`, that is `_UVM_ASSERT_MSG(expr, #expr, "\n")`. In a
debug build (`UVM_IS_DEBUG()`): `if (unlikely(!(expr))) { UVM_ERR_PRINT(...);
dump_stack(); on_uvm_assert(); }`, where `UVM_ERR_PRINT` prints only if
`uvm_debug_prints_enabled()`. Otherwise `UVM_IGNORE_EXPR(expr)`, a `sizeof`
that does not evaluate `expr`, and `UVM_NO_PRINT`. The argument `prints` is
what `uvm_debug_prints_enabled()` answers at its `k`-th call, `hook` tells
whether the `k`-th call of `on_uvm_assert()` returns, and `expr` is the value
the asserted expression has when it is evaluated. The first component of the
result tells whether the run goes on past the assertion. -/
def UVM_ASSERT (is_debug : Bool) (prints hook : Nat → Bool) (expr : Bool) (d : DiagState) :
    Bool × DiagState :=
  if is_debug then
    let d := { d with expr_evals := d.expr_evals + 1 }
    if !expr then
      let enabled := prints d.prints_queries
      let d := { d with prints_queries := d.prints_queries + 1 }
      let d := if enabled then { d with log := d.log ++ [DiagEvent.assert_print] } else d
      let d := { d with log := d.log ++ [DiagEvent.stack_dump] }
      on_uvm_assert hook d
    else
      (true, d)
  else
    (true, d)

/-- What one pass through the failure path of `UVM_ASSERT` emits, when it makes
call number `q` of `uvm_debug_prints_enabled`: the error print if that call
answers true, then the stack dump and the call of `on_uvm_assert`. -/
def failure_events (prints : Nat → Bool) (q : Nat) : List DiagEvent :=
  (if prints q then [DiagEvent.assert_print] else []) ++
    [DiagEvent.stack_dump, DiagEvent.hook_call]

/-- The record after an assertion of a debug build whose expression held: the
expression has been evaluated and nothing else has happened. -/
def assert_passed (d : DiagState) : DiagState :=
  { d with expr_evals := d.expr_evals + 1 }

/-- The record after an assertion of a debug build whose expression did not
hold: the expression has been evaluated, `uvm_debug_prints_enabled` and
`on_uvm_assert` have been called once each, and the failure path has emitted
its events. -/
def assert_failed (prints : Nat → Bool) (d : DiagState) : DiagState :=
  { expr_evals := d.expr_evals + 1,
    prints_queries := d.prints_queries + 1,
    hook_calls := d.hook_calls + 1,
    log := d.log ++ failure_events prints d.prints_queries }

/-- Modelled from the spec: the value of the kernel's `ilog2(n)` as the `int`
that it is, `fls(n) - 1`: the same number as `ilog2` for `n > 0`, and `-1` at
`n = 0`. -/
def ilog2_int (w n : Nat) : Int := (fls w (wrap w n) : Int) - 1

/-- The C expression `x >> count` on an unsigned `x` of `w` bits with a count of
type `int`; the result is undefined, `none`, when the count is negative or not
below `w`. -/
def ushr (w x : Nat) (count : Int) : Option Nat :=
  if 0 ≤ count ∧ count < (w : Int) then some (wrap w x >>> count.toNat) else none

/-- Macro `UVM_ALIGN_DOWN(x, a)` with its assertion, on a 64-bit unsigned
operand: `typeof(x) _a = a; UVM_ASSERT(is_power_of_2(_a)); (x) & ~(_a - 1);`.
The result is how the run ends, together with the record of the assertion. -/
def UVM_ALIGN_DOWN_run (is_debug : Bool) (prints hook : Nat → Bool) (x a : Nat)
    (d : DiagState) : Outcome × DiagState :=
  let _a := wrap 64 a
  let r := UVM_ASSERT is_debug prints hook (is_power_of_2 _a) d
  if r.1 then
    (Outcome.value (wrap 64 x &&& unot 64 (usub 64 _a 1)), r.2)
  else
    (Outcome.halted, r.2)

/-- Macro `UVM_ALIGN_UP(x, a)` with its assertion, on a 64-bit unsigned operand:
`typeof(x) _a = a; UVM_ASSERT(is_power_of_2(_a)); ((x) + _a - 1) & ~(_a - 1);`. -/
def UVM_ALIGN_UP_run (is_debug : Bool) (prints hook : Nat → Bool) (x a : Nat)
    (d : DiagState) : Outcome × DiagState :=
  let _a := wrap 64 a
  let r := UVM_ASSERT is_debug prints hook (is_power_of_2 _a) d
  if r.1 then
    (Outcome.value (usub 64 (uadd 64 x _a) 1 &&& unot 64 (usub 64 _a 1)), r.2)
  else
    (Outcome.halted, r.2)

/-- Function `uvm_div_pow2_32` with its assertions:
`UVM_ASSERT(is_power_of_2(denominator_pow2)); UVM_ASSERT(denominator_pow2);
return numerator >> ilog2(denominator_pow2);`, where the shift count is the
`int` that `ilog2` returns. -/
def uvm_div_pow2_32_run (is_debug : Bool) (prints hook : Nat → Bool)
    (numerator denominator_pow2 : Nat) (d : DiagState) : Outcome × DiagState :=
  let r1 := UVM_ASSERT is_debug prints hook (is_power_of_2 (wrap 32 denominator_pow2)) d
  if r1.1 then
    let r2 := UVM_ASSERT is_debug prints hook (wrap 32 denominator_pow2 != 0) r1.2
    if r2.1 then
      match ushr 32 numerator (ilog2_int 32 denominator_pow2) with
      | some v => (Outcome.value (wrap 32 v), r2.2)
      | none => (Outcome.undefined, r2.2)
    else
      (Outcome.halted, r2.2)
  else
    (Outcome.halted, r1.2)

/-- Function `uvm_div_pow2_64` with its assertions:
`UVM_ASSERT(is_power_of_2(denominator_pow2)); UVM_ASSERT(denominator_pow2);
return numerator >> ilog2(denominator_pow2);`, where the shift count is the
`int` that `ilog2` returns. -/
def uvm_div_pow2_64_run (is_debug : Bool) (prints hook : Nat → Bool)
    (numerator denominator_pow2 : Nat) (d : DiagState) : Outcome × DiagState :=
  let r1 := UVM_ASSERT is_debug prints hook (is_power_of_2 (wrap 64 denominator_pow2)) d
  if r1.1 then
    let r2 := UVM_ASSERT is_debug prints hook (wrap 64 denominator_pow2 != 0) r1.2
    if r2.1 then
      match ushr 64 numerator (ilog2_int 64 denominator_pow2) with
      | some v => (Outcome.value (wrap 64 v), r2.2)
      | none => (Outcome.undefined, r2.2)
    else
      (Outcome.halted, r2.2)
  else
    (Outcome.halted, r1.2)

/-- An empty record of assertions. -/
def no_diag : DiagState where
  expr_evals := 0
  prints_queries := 0
  hook_calls := 0
  log := []

/-! ## Sum of the first integers -/

/-- The C expression `x * y` at an unsigned type of `w` bits. -/
def umul (w x y : Nat) : Nat := (wrap w x * wrap w y) % 2 ^ w

/-- Macro `SUM_FROM_0_TO_N(n)` at an unsigned operand type of `w` bits (at least
as wide as `int`): `(((n) * ((n) + 1)) / 2)`. -/
def SUM_FROM_0_TO_N (w n : Nat) : Nat := umul w n (uadd w n 1) / 2

/-- The sum `0 + 1 + ... + n`, term by term. -/
def sum_0_to_n : Nat → Nat
  | 0 => 0
  | n + 1 => sum_0_to_n n + (n + 1)

/-! ## Evaluations on concrete inputs -/

theorem align_eval :
    UVM_ALIGN_DOWN 64 4099 4096 = 4096 ∧ UVM_ALIGN_UP 64 4099 4096 = 8192 ∧
    UVM_ALIGN_DOWN 64 8192 4096 = 8192 ∧ UVM_ALIGN_UP 64 8192 4096 = 8192 ∧
    UVM_ALIGN_UP 32 (2 ^ 32 - 1) 2 = 0 := by
  decide

theorem div_pow2_eval :
    uvm_div_pow2_32 4099 4 = 1024 ∧ uvm_div_pow2_64 (2 ^ 64 - 1) (2 ^ 63) = 1 ∧
    ilog2 64 1 = 0 ∧ ilog2 64 4096 = 12 ∧ ilog2 32 (2 ^ 31) = 31 := by
  decide

theorem canonical_form_eval :
    uvm_address_get_canonical_form true (2 ^ 48) = 0xFFFF000000000000 ∧
    uvm_address_get_canonical_form true (2 ^ 63 + 5) = 5 ∧
    uvm_address_get_canonical_form true (2 ^ 48 - 1) = 2 ^ 48 - 1 ∧
    uvm_address_get_canonical_form false (2 ^ 63 + 5) = 2 ^ 63 + 5 := by
  decide

theorem sample_wait_eval :
    UVM_SPIN_WHILE (sample_env 4) 10 sample_state =
      some { spin := { start_time_ns := 7000000000, print_time_ns := 7000000000 },
             clock_reads := 2, cond_evals := 5, init_calls := 1, body_runs := 3,
             spin_loop_calls := 3, prints_queries := 2,
             log := [LogEvent.stuck_warning 7, LogEvent.stack_dump] } ∧
    UVM_SPIN_WHILE (sample_env 4) 3 sample_state = none := by
  decide

/-! ## Auxiliary lemmas -/

theorem wrap_of_lt {w v : Nat} (h : v < 2 ^ w) : wrap w v = v := Nat.mod_eq_of_lt h

theorem mod_of_lt_two_mul {n M : Nat} (h : n < 2 * M) :
    n % M = if n < M then n else n - M := by
  split
  · next h1 => exact Nat.mod_eq_of_lt h1
  · next h1 =>
    rw [Nat.mod_eq_sub_mod (by omega), Nat.mod_eq_of_lt (by omega)]

theorem two_pow_lt_two_pow {k w : Nat} (h : k < w) : 2 ^ k < 2 ^ w :=
  Nat.pow_lt_pow_right (by decide) h

theorem usub_two_pow_one {k w : Nat} (h : k < w) : usub w (2 ^ k) 1 = 2 ^ k - 1 := by
  have h1 : 2 ^ k < 2 ^ w := two_pow_lt_two_pow h
  have h0 : 0 < 2 ^ k := Nat.pow_pos (by decide)
  have h2 : 1 < 2 ^ w := by omega
  unfold usub
  rw [wrap_of_lt h1, wrap_of_lt h2, mod_of_lt_two_mul (by omega)]
  split <;> omega

theorem land_mask_eq {w k y : Nat} (hk : k < w) (hy : y < 2 ^ w) :
    y &&& (2 ^ w - 1 - (2 ^ k - 1)) = y / 2 ^ k * 2 ^ k := by
  have h1 : 2 ^ k - 1 < 2 ^ w := by
    have := two_pow_lt_two_pow hk
    omega
  have e : 2 ^ w - 1 - (2 ^ k - 1) = 2 ^ w - (2 ^ k - 1 + 1) := by omega
  rw [e, ← Nat.shiftRight_eq_div_pow, ← Nat.shiftLeft_eq]
  apply Nat.eq_of_testBit_eq
  intro i
  rw [Nat.testBit_and, Nat.testBit_two_pow_sub_succ h1, Nat.testBit_two_pow_sub_one,
    Nat.testBit_shiftLeft, Nat.testBit_shiftRight]
  by_cases hik : i < k
  · have : ¬ (i ≥ k) := by omega
    simp [hik, this]
  · have hge : i ≥ k := by omega
    have e2 : k + (i - k) = i := by omega
    rw [e2]
    by_cases hiw : i < w
    · simp [hik, hge, hiw]
    · have : y.testBit i = false :=
        Nat.testBit_lt_two_pow (Nat.lt_of_lt_of_le hy (Nat.pow_le_pow_right (by decide) (by omega)))
      simp [this]

theorem align_down_eq {w k x : Nat} (hk : k < w) (hx : x < 2 ^ w) :
    UVM_ALIGN_DOWN w x (2 ^ k) = x / 2 ^ k * 2 ^ k := by
  have h1 : 2 ^ k < 2 ^ w := two_pow_lt_two_pow hk
  have h2 : 2 ^ k - 1 < 2 ^ w := by omega
  simp only [UVM_ALIGN_DOWN, unot]
  rw [wrap_of_lt h1, usub_two_pow_one hk, wrap_of_lt hx, wrap_of_lt h2, land_mask_eq hk hx]

theorem usub_uadd_one {w k x : Nat} (hk : k < w) (hx : x < 2 ^ w) :
    usub w (uadd w x (2 ^ k)) 1 =
      if x + 2 ^ k - 1 < 2 ^ w then x + 2 ^ k - 1 else x + 2 ^ k - 1 - 2 ^ w := by
  have h1 : 2 ^ k < 2 ^ w := two_pow_lt_two_pow hk
  have h0 : 0 < 2 ^ k := Nat.pow_pos (by decide)
  have h2 : 1 < 2 ^ w := by omega
  have hs : (x + 2 ^ k) % 2 ^ w < 2 ^ w := Nat.mod_lt _ (by omega)
  have hs2 := @mod_of_lt_two_mul (x + 2 ^ k) (2 ^ w) (by omega)
  unfold usub uadd
  rw [wrap_of_lt h1, wrap_of_lt hx, wrap_of_lt h2, wrap_of_lt hs, mod_of_lt_two_mul (by omega)]
  split at hs2 <;> split <;> split <;> omega

theorem align_up_eq {w k x : Nat} (hk : k < w) (hx : x < 2 ^ w) :
    UVM_ALIGN_UP w x (2 ^ k) =
      (if x + 2 ^ k - 1 < 2 ^ w then x + 2 ^ k - 1 else x + 2 ^ k - 1 - 2 ^ w) / 2 ^ k * 2 ^ k := by
  have h1 : 2 ^ k < 2 ^ w := two_pow_lt_two_pow hk
  have h2 : 2 ^ k - 1 < 2 ^ w := by omega
  simp only [UVM_ALIGN_UP, unot]
  rw [wrap_of_lt h1, usub_two_pow_one hk, usub_uadd_one hk hx, wrap_of_lt h2, land_mask_eq hk]
  split <;> omega


theorem fls_zero (w : Nat) : fls w 0 = 0 := by
  cases w <;> simp [fls]

theorem fls_two_pow : ∀ (w k : Nat), k < w → fls w (2 ^ k) = k + 1
  | 0, _, h => absurd h (Nat.not_lt_zero _)
  | w + 1, 0, _ => by simp [fls, fls_zero]
  | w + 1, k + 1, h => by
    have hne : 2 ^ (k + 1) ≠ 0 := Nat.pos_iff_ne_zero.mp (Nat.pow_pos (by decide))
    have hdiv : 2 ^ (k + 1) / 2 = 2 ^ k := by
      rw [Nat.pow_succ, Nat.mul_div_cancel _ (by decide)]
    simp only [fls, hne, if_false, hdiv]
    rw [fls_two_pow w k (by omega)]

theorem ilog2_two_pow {w k : Nat} (h : k < w) : ilog2 w (2 ^ k) = k := by
  unfold ilog2
  rw [wrap_of_lt (two_pow_lt_two_pow h), fls_two_pow w k h]
  rfl

theorem least_multiple {a r x : Nat} (hd : a ∣ r) (h2 : r < x + a) :
    ∀ m, a ∣ m → x ≤ m → r ≤ m := by
  intro m hm hxm
  by_contra hlt
  obtain ⟨c, rfl⟩ := hm
  obtain ⟨d, rfl⟩ := hd
  have hcd : c < d := by
    by_contra hcd
    exact hlt (Nat.mul_le_mul_left a (by omega))
  have : a * (c + 1) ≤ a * d := Nat.mul_le_mul_left a hcd
  rw [Nat.mul_add, Nat.mul_one] at this
  omega

theorem greatest_multiple {a r x : Nat} (hd : a ∣ r) (h2 : x < r + a) :
    ∀ m, a ∣ m → m ≤ x → m ≤ r := by
  intro m hm hmx
  by_contra hlt
  obtain ⟨c, rfl⟩ := hm
  obtain ⟨d, rfl⟩ := hd
  have hcd : d < c := by
    by_contra hcd
    exact hlt (Nat.mul_le_mul_left a (by omega))
  have : a * (d + 1) ≤ a * c := Nat.mul_le_mul_left a hcd
  rw [Nat.mul_add, Nat.mul_one] at this
  omega

theorem round_up_div_eq_ceil_div {a : Nat} (x : Nat) (ha : 0 < a) :
    (x + a - 1) / a = ceil_div x a := by
  have hdm := Nat.div_add_mod x a
  have hr := Nat.mod_lt x ha
  have hc : a * (x / a) = x / a * a := Nat.mul_comm _ _
  have hs : (x / a + 1) * a = x / a * a + a := by rw [Nat.add_mul, Nat.one_mul]
  unfold ceil_div
  split
  · apply Nat.div_eq_of_lt_le
    · omega
    · show x + a - 1 < (x / a + 1) * a
      omega
  · apply Nat.div_eq_of_lt_le
    · omega
    · show x + a - 1 < (x / a + 1 + 1) * a
      rw [Nat.add_mul (x / a + 1), Nat.one_mul]
      omega

theorem div_mul_bounds (x : Nat) {a : Nat} (ha : 0 < a) :
    x / a * a ≤ x ∧ x < x / a * a + a := by
  have hdm := Nat.div_add_mod x a
  have hr := Nat.mod_lt x ha
  have hc : a * (x / a) = x / a * a := Nat.mul_comm _ _
  omega

/-! ## Alignment -/

/-- C1: for every unsigned 64-bit `x` and every power-of-two alignment
`a = 2 ^ k` with `k < 64`, the value `r = UVM_ALIGN_DOWN(x, a)` satisfies
`r ≤ x`, `x < r + a` (the sum taken in unbounded integers) and `r mod a = 0`. -/
theorem align_down_bounds (x k : Nat) (hx : x < 2 ^ 64) (hk : k < 64) :
    UVM_ALIGN_DOWN 64 x (2 ^ k) ≤ x ∧
    x < UVM_ALIGN_DOWN 64 x (2 ^ k) + 2 ^ k ∧
    UVM_ALIGN_DOWN 64 x (2 ^ k) % 2 ^ k = 0 := by
  have ha : 0 < 2 ^ k := Nat.pow_pos (by decide)
  rw [align_down_eq hk hx]
  exact ⟨(div_mul_bounds x ha).1, (div_mul_bounds x ha).2, Nat.mul_mod_left _ _⟩

/-- Witness of C1 at `x = 4099`, `a = 2 ^ 12`. -/
theorem align_down_bounds_witness :
    4099 < 2 ^ 64 ∧ 12 < 64 ∧
    (UVM_ALIGN_DOWN 64 4099 (2 ^ 12) ≤ 4099 ∧
     4099 < UVM_ALIGN_DOWN 64 4099 (2 ^ 12) + 2 ^ 12 ∧
     UVM_ALIGN_DOWN 64 4099 (2 ^ 12) % 2 ^ 12 = 0) :=
  ⟨by decide, by decide, align_down_bounds 4099 12 (by decide) (by decide)⟩

/-- C2, as stated, fails: at the `NvU64` value `x = 2 ^ 64 - 1` and alignment
`a = 2` the sum `x + a - 1` wraps to `0`, so `UVM_ALIGN_UP(x, a) = 0 < x`. -/
theorem align_up_wraps_below :
    2 ^ 64 - 1 < 2 ^ 64 ∧ 1 < 64 ∧ UVM_ALIGN_UP 64 (2 ^ 64 - 1) (2 ^ 1) = 0 ∧
    ¬ (UVM_ALIGN_UP 64 (2 ^ 64 - 1) (2 ^ 1) ≥ 2 ^ 64 - 1 ∧
       UVM_ALIGN_UP 64 (2 ^ 64 - 1) (2 ^ 1) - (2 ^ 64 - 1) < 2 ^ 1) := by
  decide

/-- C2, amended: for every value `x` of an unsigned operand type of `w` bits
that is at least as wide as `int` (`32 ≤ w`: `NvU32`, `NvU64`), where the
arithmetic of the macro is taken modulo `2 ^ w`, and every power-of-two
alignment `a = 2 ^ k` of that type, `r = UVM_ALIGN_UP(x, a)` satisfies `r ≥ x`
exactly when `x + a - 1 < 2 ^ w` (the sum does not wrap); the bound `r - x < a`
holds in every case, for the integer difference and for the difference taken
modulo `2 ^ w`. -/
theorem align_up_bounds (w x k : Nat) (_hw : 32 ≤ w) (hx : x < 2 ^ w) (hk : k < w) :
    (UVM_ALIGN_UP w x (2 ^ k) ≥ x ↔ x + 2 ^ k - 1 < 2 ^ w) ∧
    (UVM_ALIGN_UP w x (2 ^ k) : Int) - (x : Int) < ((2 ^ k : Nat) : Int) ∧
    usub w (UVM_ALIGN_UP w x (2 ^ k)) x < 2 ^ k := by
  have ha : 0 < 2 ^ k := Nat.pow_pos (by decide)
  have h1 : 2 ^ k < 2 ^ w := two_pow_lt_two_pow hk
  have hr : UVM_ALIGN_UP w x (2 ^ k) < 2 ^ w := by
    rw [align_up_eq hk hx]
    split
    · next h => exact Nat.lt_of_le_of_lt (div_mul_bounds _ ha).1 h
    · exact Nat.lt_of_le_of_lt (div_mul_bounds _ ha).1 (by omega)
  have hsub : usub w (UVM_ALIGN_UP w x (2 ^ k)) x =
      (UVM_ALIGN_UP w x (2 ^ k) + (2 ^ w - x)) % 2 ^ w := by
    unfold usub
    rw [wrap_of_lt hr, wrap_of_lt hx]
  rw [hsub]
  have e := @align_up_eq w k x hk hx
  by_cases hnw : x + 2 ^ k - 1 < 2 ^ w
  · rw [if_pos hnw] at e
    have b := div_mul_bounds (x + 2 ^ k - 1) ha
    rw [← e] at b
    refine ⟨⟨fun _ => hnw, fun _ => by omega⟩, by omega, ?_⟩
    rw [mod_of_lt_two_mul (by omega)]
    split <;> omega
  · rw [if_neg hnw] at e
    have b := div_mul_bounds (x + 2 ^ k - 1 - 2 ^ w) ha
    rw [← e] at b
    refine ⟨⟨fun h => by omega, fun h => absurd h hnw⟩, by omega, ?_⟩
    rw [mod_of_lt_two_mul (by omega)]
    split <;> omega

/-- Witness of the amended C2 at `NvU64`, `x = 4099`, `a = 2 ^ 12`. -/
theorem align_up_bounds_witness :
    32 ≤ 64 ∧ 4099 < 2 ^ 64 ∧ 12 < 64 ∧
    ((UVM_ALIGN_UP 64 4099 (2 ^ 12) ≥ 4099 ↔ 4099 + 2 ^ 12 - 1 < 2 ^ 64) ∧
    (UVM_ALIGN_UP 64 4099 (2 ^ 12) : Int) - ((4099 : Nat) : Int) < ((2 ^ 12 : Nat) : Int) ∧
    usub 64 (UVM_ALIGN_UP 64 4099 (2 ^ 12)) 4099 < 2 ^ 12) :=
  ⟨by decide, by decide, by decide,
    align_up_bounds 64 4099 12 (by decide) (by decide) (by decide)⟩

/-- C3: for every unsigned 64-bit `x` and power-of-two `a = 2 ^ k` with
`x + a - 1 < 2 ^ 64`, `UVM_ALIGN_UP(x, a)` equals `ceil(x / a) * a` computed by
division and is the least multiple of `a` that is `≥ x`; `UVM_ALIGN_DOWN(x, a)`
equals `floor(x / a) * a` and is the greatest multiple of `a` that is `≤ x`;
and each returns `x` unchanged exactly when `x` is a multiple of `a`. -/
theorem align_refines_division (x k : Nat) (hx : x < 2 ^ 64) (hk : k < 64)
    (hnw : x + 2 ^ k - 1 < 2 ^ 64) :
    UVM_ALIGN_UP 64 x (2 ^ k) = align_up_by_division x (2 ^ k) ∧
    (2 ^ k ∣ UVM_ALIGN_UP 64 x (2 ^ k) ∧ x ≤ UVM_ALIGN_UP 64 x (2 ^ k) ∧
      ∀ m, 2 ^ k ∣ m → x ≤ m → UVM_ALIGN_UP 64 x (2 ^ k) ≤ m) ∧
    UVM_ALIGN_DOWN 64 x (2 ^ k) = align_down_by_division x (2 ^ k) ∧
    (2 ^ k ∣ UVM_ALIGN_DOWN 64 x (2 ^ k) ∧ UVM_ALIGN_DOWN 64 x (2 ^ k) ≤ x ∧
      ∀ m, 2 ^ k ∣ m → m ≤ x → m ≤ UVM_ALIGN_DOWN 64 x (2 ^ k)) ∧
    (UVM_ALIGN_UP 64 x (2 ^ k) = x ↔ 2 ^ k ∣ x) ∧
    (UVM_ALIGN_DOWN 64 x (2 ^ k) = x ↔ 2 ^ k ∣ x) := by
  have ha : 0 < 2 ^ k := Nat.pow_pos (by decide)
  have eu : UVM_ALIGN_UP 64 x (2 ^ k) = (x + 2 ^ k - 1) / 2 ^ k * 2 ^ k := by
    rw [align_up_eq hk hx, if_pos hnw]
  have ed : UVM_ALIGN_DOWN 64 x (2 ^ k) = x / 2 ^ k * 2 ^ k := align_down_eq hk hx
  have bu := div_mul_bounds (x + 2 ^ k - 1) ha
  have bd := div_mul_bounds x ha
  rw [← eu] at bu
  rw [← ed] at bd
  have du : 2 ^ k ∣ UVM_ALIGN_UP 64 x (2 ^ k) := eu ▸ Nat.dvd_mul_left _ _
  have dd : 2 ^ k ∣ UVM_ALIGN_DOWN 64 x (2 ^ k) := ed ▸ Nat.dvd_mul_left _ _
  have lu := @least_multiple (2 ^ k) (UVM_ALIGN_UP 64 x (2 ^ k)) x du (by omega)
  have gd := @greatest_multiple (2 ^ k) (UVM_ALIGN_DOWN 64 x (2 ^ k)) x dd bd.2
  refine ⟨?_, ⟨du, by omega, lu⟩, ed, ⟨dd, bd.1, gd⟩, ⟨?_, ?_⟩, ⟨?_, ?_⟩⟩
  · rw [eu, align_up_by_division, round_up_div_eq_ceil_div x ha]
  · intro h
    exact h ▸ du
  · intro h
    have := lu x h (Nat.le_refl x)
    omega
  · intro h
    exact h ▸ dd
  · intro h
    have := gd x h (Nat.le_refl x)
    omega

/-- Witness of C3 at `x = 4099`, `a = 2 ^ 12`. -/
theorem align_refines_division_witness :
    4099 < 2 ^ 64 ∧ 12 < 64 ∧ 4099 + 2 ^ 12 - 1 < 2 ^ 64 ∧
    UVM_ALIGN_UP 64 4099 (2 ^ 12) = align_up_by_division 4099 (2 ^ 12) ∧
    UVM_ALIGN_DOWN 64 4099 (2 ^ 12) = align_down_by_division 4099 (2 ^ 12) :=
  have h := align_refines_division 4099 12 (by decide) (by decide) (by decide)
  ⟨by decide, by decide, by decide, h.1, h.2.2.1⟩

/-! ## Division by a power of two -/

theorem div_pow2_eq {w n k : Nat} (hn : n < 2 ^ w) (hk : k < w) :
    wrap w (wrap w n >>> ilog2 w (2 ^ k)) = n / 2 ^ k := by
  rw [ilog2_two_pow hk, wrap_of_lt hn, Nat.shiftRight_eq_div_pow]
  exact wrap_of_lt (Nat.lt_of_le_of_lt (Nat.div_le_self _ _) hn)

/-- C4: for every power-of-two divisor `d = 2 ^ k` and every numerator `n`,
`uvm_div_pow2_32(n, d)` (with `n, d < 2 ^ 32`) and `uvm_div_pow2_64(n, d)` (with
`n, d < 2 ^ 64`) both return the floor quotient `n / d`. -/
theorem uvm_div_pow2_eq_div (n₁ k₁ n₂ k₂ : Nat) (hn₁ : n₁ < 2 ^ 32) (hk₁ : k₁ < 32)
    (hn₂ : n₂ < 2 ^ 64) (hk₂ : k₂ < 64) :
    uvm_div_pow2_32 n₁ (2 ^ k₁) = n₁ / 2 ^ k₁ ∧
    uvm_div_pow2_64 n₂ (2 ^ k₂) = n₂ / 2 ^ k₂ :=
  ⟨div_pow2_eq hn₁ hk₁, div_pow2_eq hn₂ hk₂⟩

/-- Witness of C4 at `4099 / 4` on `NvU32` and `(2 ^ 64 - 1) / 2 ^ 63` on `NvU64`. -/
theorem uvm_div_pow2_eq_div_witness :
    4099 < 2 ^ 32 ∧ 2 < 32 ∧ 2 ^ 64 - 1 < 2 ^ 64 ∧ 63 < 64 ∧
    uvm_div_pow2_32 4099 (2 ^ 2) = 4099 / 2 ^ 2 ∧
    uvm_div_pow2_64 (2 ^ 64 - 1) (2 ^ 63) = (2 ^ 64 - 1) / 2 ^ 63 :=
  ⟨by decide, by decide, by decide, by decide,
    uvm_div_pow2_eq_div 4099 2 (2 ^ 64 - 1) 63 (by decide) (by decide) (by decide) (by decide)⟩

/-! ## Range overlap -/

/-- C5: `uvm_ranges_overlap` is symmetric in its two ranges, for all operands
(in particular all unsigned 64-bit ones); ranges sharing a single endpoint
overlap, `uvm_ranges_overlap(0, 10, 10, 20) = true`, and adjacent ranges do
not, `uvm_ranges_overlap(0, 9, 10, 20) = false`. -/
theorem uvm_ranges_overlap_symm_and_boundary :
    (∀ a0 a1 b0 b1 : Nat,
      uvm_ranges_overlap a0 a1 b0 b1 = uvm_ranges_overlap b0 b1 a0 a1) ∧
    uvm_ranges_overlap 0 10 10 20 = true ∧
    uvm_ranges_overlap 0 9 10 20 = false := by
  refine ⟨fun a0 a1 b0 b1 => ?_, by decide, by decide⟩
  unfold uvm_ranges_overlap
  exact Bool.and_comm _ _

/-- C6: for inclusive ranges of unsigned 64-bit addresses with
`a_start ≤ a_end` and `b_start ≤ b_end`, `uvm_ranges_overlap` returns true if
and only if some 64-bit address `x` lies in both ranges; and its result is the
negation of strict disjointness, `a_end < b_start || b_end < a_start`. -/
theorem uvm_ranges_overlap_iff_common_address (a_start a_end b_start b_end : Nat)
    (ha : a_start ≤ a_end) (hb : b_start ≤ b_end) (hae : a_end < 2 ^ 64) :
    (uvm_ranges_overlap a_start a_end b_start b_end = true ↔
      ∃ x, x < 2 ^ 64 ∧ (a_start ≤ x ∧ x ≤ a_end) ∧ (b_start ≤ x ∧ x ≤ b_end)) ∧
    uvm_ranges_overlap a_start a_end b_start b_end =
      !(decide (a_end < b_start) || decide (b_end < a_start)) := by
  unfold uvm_ranges_overlap
  constructor
  · rw [Bool.and_eq_true, decide_eq_true_iff, decide_eq_true_iff]
    constructor
    · rintro ⟨h1, h2⟩
      by_cases h : a_start ≤ b_start
      · exact ⟨b_start, by omega, ⟨h, h1⟩, ⟨Nat.le_refl _, hb⟩⟩
      · exact ⟨a_start, by omega, ⟨Nat.le_refl _, ha⟩, ⟨by omega, h2⟩⟩
    · rintro ⟨x, _, ⟨h1, h2⟩, ⟨h3, h4⟩⟩
      exact ⟨by omega, by omega⟩
  · by_cases h1 : a_end < b_start <;> by_cases h2 : b_end < a_start <;> simp [h1, h2]
    all_goals omega

/-- Witness of C6 at the ranges `[0, 10]` and `[10, 20]`. -/
theorem uvm_ranges_overlap_iff_common_address_witness :
    (0 : Nat) ≤ 10 ∧ (10 : Nat) ≤ 20 ∧ 10 < 2 ^ 64 ∧
    ((uvm_ranges_overlap 0 10 10 20 = true ↔
      ∃ x, x < 2 ^ 64 ∧ (0 ≤ x ∧ x ≤ 10) ∧ (10 ≤ x ∧ x ≤ 20)) ∧
    uvm_ranges_overlap 0 10 10 20 = !(decide (10 < 10) || decide (20 < 0))) :=
  ⟨by decide, by decide, by decide,
    uvm_ranges_overlap_iff_common_address 0 10 10 20 (by decide) (by decide) (by decide)⟩

/-! ## Canonical form -/

theorem canonical_form_eq (x : Nat) :
    uvm_address_get_canonical_form true x =
      if x % 2 ^ 49 < 2 ^ 48 then x % 2 ^ 49 else x % 2 ^ 49 + (2 ^ 64 - 2 ^ 49) := by
  simp only [uvm_address_get_canonical_form, if_true, toU64, s64_shr, s64_shl, toS64, wrap,
    Int.shiftRight_eq_div_pow]
  norm_num
  split_ifs <;> omega

/-- C7: `uvm_address_get_canonical_form` is idempotent, on the sign-extending
variant (`canonical_arch = true`) and on the identity variant alike. -/
theorem uvm_address_get_canonical_form_idempotent (canonical_arch : Bool) (x : Nat) :
    uvm_address_get_canonical_form canonical_arch
        (uvm_address_get_canonical_form canonical_arch x) =
      uvm_address_get_canonical_form canonical_arch x := by
  cases canonical_arch
  · rfl
  · rw [canonical_form_eq (uvm_address_get_canonical_form true x), canonical_form_eq x]
    norm_num
    split_ifs <;> omega

/-- C8: on the sign-extending variant, for every 64-bit address `x`: if bit 48
of `x` is set then bits 49 through 63 of `uvm_address_get_canonical_form(x)`
are all set, and if bit 48 of `x` is clear then bits 49 through 63 of the
result are all clear. -/
theorem uvm_address_get_canonical_form_high_bits (x : Nat) :
    (x.testBit 48 = true → ∀ i, 49 ≤ i → i ≤ 63 →
      (uvm_address_get_canonical_form true x).testBit i = true) ∧
    (x.testBit 48 = false → ∀ i, 49 ≤ i → i ≤ 63 →
      (uvm_address_get_canonical_form true x).testBit i = false) := by
  rw [canonical_form_eq]
  simp only [Nat.testBit_to_div_mod, decide_eq_true_eq, decide_eq_false_iff_not]
  norm_num
  constructor <;> intro h i h49 h63 <;> interval_cases i <;> norm_num <;> split_ifs <;> omega

/-- Witness of C8 at `x = 2 ^ 48`, whose bit 48 is set, and bit 63 of the
result. -/
theorem uvm_address_get_canonical_form_high_bits_witness :
    (2 ^ 48).testBit 48 = true ∧ 49 ≤ 63 ∧ 63 ≤ 63 ∧
    (uvm_address_get_canonical_form true (2 ^ 48)).testBit 63 = true :=
  ⟨by decide, by decide, by decide,
    (uvm_address_get_canonical_form_high_bits (2 ^ 48)).1 (by decide) 63 (by decide)
      (by decide)⟩

/-! ## Three-way comparison -/

/-- C9: `UVM_CMP_DEFAULT(a, b)` is `-1` if and only if `a < b`, `1` if and only
if `a > b`, and `0` if and only if `a = b`, so it is always one of `-1`, `0`,
`1`; and `(3, 5)` gives `-1`, `(5, 3)` gives `1`, `(5, 5)` gives `0`. -/
theorem UVM_CMP_DEFAULT_spec :
    (∀ a b : Int,
      (UVM_CMP_DEFAULT a b = -1 ↔ a < b) ∧
      (UVM_CMP_DEFAULT a b = 1 ↔ a > b) ∧
      (UVM_CMP_DEFAULT a b = 0 ↔ a = b) ∧
      (UVM_CMP_DEFAULT a b = -1 ∨ UVM_CMP_DEFAULT a b = 0 ∨ UVM_CMP_DEFAULT a b = 1)) ∧
    UVM_CMP_DEFAULT 3 5 = -1 ∧ UVM_CMP_DEFAULT 5 3 = 1 ∧ UVM_CMP_DEFAULT 5 5 = 0 := by
  refine ⟨fun a b => ?_, by decide, by decide, by decide⟩
  unfold UVM_CMP_DEFAULT
  split_ifs with h1 h2
  · exact ⟨iff_of_true rfl h1, iff_of_false (by decide) (by omega),
      iff_of_false (by decide) (by omega), Or.inl rfl⟩
  · exact ⟨iff_of_false (by decide) h1, iff_of_true rfl h2,
      iff_of_false (by decide) (by omega), Or.inr (Or.inr rfl)⟩
  · exact ⟨iff_of_false (by decide) h1, iff_of_false (by decide) h2,
      iff_of_true rfl (by omega), Or.inr (Or.inl rfl)⟩

/-! ## Spin loop -/

/-- C10: `UVM_SPIN_WHILE` short-circuits. For every wait state, clock and
environment, if the condition is false at its first evaluation then the wait
ends at once (whatever the fuel) having only evaluated the condition once:
`uvm_spin_loop_init` is not called, `start_time_ns` and `print_time_ns` are
unchanged, the clock is not read, the body runs zero times and
`UVM_SPIN_LOOP` / `uvm_spin_loop` is invoked zero times. -/
theorem UVM_SPIN_WHILE_short_circuit (env : SpinEnv) (fuel : Nat) (s : SpinState)
    (hc : env.cond s.cond_evals = false) :
    ∃ s', UVM_SPIN_WHILE env fuel s = some s' ∧
      s' = { s with cond_evals := s.cond_evals + 1 } ∧
      s'.init_calls = s.init_calls ∧
      s'.spin.start_time_ns = s.spin.start_time_ns ∧
      s'.spin.print_time_ns = s.spin.print_time_ns ∧
      s'.clock_reads = s.clock_reads ∧
      s'.body_runs = s.body_runs ∧
      s'.spin_loop_calls = s.spin_loop_calls ∧
      s'.log = s.log := by
  refine ⟨{ s with cond_evals := s.cond_evals + 1 }, ?_, rfl, rfl, rfl, rfl, rfl, rfl, rfl, rfl⟩
  simp [UVM_SPIN_WHILE, eval_cond, hc]

/-- Witness of C10: on the sample wait whose condition is false from the start,
with no fuel at all, the wait ends with the wait state still `5` and `6`. -/
theorem UVM_SPIN_WHILE_short_circuit_witness :
    (sample_env 0).cond sample_state.cond_evals = false ∧
    ∃ s', UVM_SPIN_WHILE (sample_env 0) 0 sample_state = some s' ∧
      s' = { sample_state with cond_evals := sample_state.cond_evals + 1 } ∧
      s'.init_calls = sample_state.init_calls ∧
      s'.spin.start_time_ns = sample_state.spin.start_time_ns ∧
      s'.spin.print_time_ns = sample_state.spin.print_time_ns ∧
      s'.clock_reads = sample_state.clock_reads ∧
      s'.body_runs = sample_state.body_runs ∧
      s'.spin_loop_calls = sample_state.spin_loop_calls ∧
      s'.log = sample_state.log :=
  ⟨by decide, UVM_SPIN_WHILE_short_circuit (sample_env 0) 0 sample_state (by decide)⟩

/-! ## Further evaluations on concrete inputs -/

theorem assert_eval :
    is_power_of_2 4096 = true ∧ is_power_of_2 0 = false ∧ is_power_of_2 12 = false ∧
    ilog2_int 32 12 = 3 ∧ ilog2_int 32 0 = -1 ∧ ushr 32 4099 3 = some 512 ∧
    ushr 32 4099 (-1) = none ∧
    UVM_ALIGN_UP_run true (fun _ => true) (fun _ => true) 4099 4096 no_diag =
      (Outcome.value 8192, assert_passed no_diag) ∧
    UVM_ALIGN_UP_run false (fun _ => true) (fun _ => false) 4099 12 no_diag =
      (Outcome.value 4100, no_diag) ∧
    uvm_div_pow2_32_run true (fun _ => true) (fun _ => true) 4099 12 no_diag =
      (Outcome.value 512,
        { expr_evals := 2, prints_queries := 1, hook_calls := 1,
          log := [DiagEvent.assert_print, DiagEvent.stack_dump, DiagEvent.hook_call] }) ∧
    uvm_div_pow2_32_run true (fun _ => false) (fun _ => false) 4099 12 no_diag =
      (Outcome.halted,
        { expr_evals := 1, prints_queries := 1, hook_calls := 1,
          log := [DiagEvent.stack_dump, DiagEvent.hook_call] }) ∧
    uvm_div_pow2_64_run true (fun _ => false) (fun _ => true) 4099 0 no_diag =
      (Outcome.undefined,
        { expr_evals := 2, prints_queries := 2, hook_calls := 2,
          log := [DiagEvent.stack_dump, DiagEvent.hook_call,
                  DiagEvent.stack_dump, DiagEvent.hook_call] }) ∧
    uvm_div_pow2_64_run false (fun _ => true) (fun _ => true) 4099 0 no_diag =
      (Outcome.undefined, no_diag) := by
  decide

theorem cache_and_sum_eval :
    (kmem_cache_destroy_safe 8 sample_cache).destroyed = [77] ∧
    (kmem_cache_destroy_safe 8 sample_cache).mem 8 = 0 ∧
    (kmem_cache_destroy_safe 16 sample_cache).destroyed = [] ∧
    (kmem_cache_destroy_safe 0 sample_cache).mem 8 = 77 ∧
    SUM_FROM_0_TO_N 32 10 = 55 ∧ sum_0_to_n 10 = 55 ∧
    SUM_FROM_0_TO_N 32 (2 ^ 16) = 32768 := by
  decide

theorem sim_wait_eval :
    poll_statuses (sim_env 30 10 100 4) 4 0 { start_time_ns := 100, print_time_ns := 100 } =
      [NV_STATUS.NV_OK, NV_STATUS.NV_OK, NV_STATUS.NV_OK, NV_STATUS.NV_ERR_TIMEOUT_RETRY] ∧
    UVM_SPIN_WHILE (sim_env 30 10 100 4) 5 sample_state =
      some { spin := { start_time_ns := 100, print_time_ns := 140 },
             clock_reads := 1, cond_evals := 6, init_calls := 1, body_runs := 4,
             spin_loop_calls := 4, prints_queries := 2, log := [] } := by
  decide

/-! ## Spin loop: initialisation, polling and the whole wait -/

/-- C11: for every prior content of the wait state and every clock reading `t`,
`uvm_spin_loop_init` reads the clock once and sets both `start_time_ns` and
`print_time_ns` to that reading, so `print_time_ns ≥ start_time_ns` holds right
after the initialisation. -/
theorem uvm_spin_loop_init_sets_both (env : SpinEnv) (s : SpinState) :
    (uvm_spin_loop_init env s).clock_reads = s.clock_reads + 1 ∧
    (uvm_spin_loop_init env s).spin.start_time_ns = wrap 64 (env.NV_GETTIME s.clock_reads) ∧
    (uvm_spin_loop_init env s).spin.print_time_ns = wrap 64 (env.NV_GETTIME s.clock_reads) ∧
    (uvm_spin_loop_init env s).spin.print_time_ns ≥
      (uvm_spin_loop_init env s).spin.start_time_ns ∧
    (uvm_spin_loop_init env s).init_calls = s.init_calls + 1 ∧
    (uvm_spin_loop_init env s).cond_evals = s.cond_evals ∧
    (uvm_spin_loop_init env s).body_runs = s.body_runs ∧
    (uvm_spin_loop_init env s).spin_loop_calls = s.spin_loop_calls ∧
    (uvm_spin_loop_init env s).log = s.log :=
  ⟨rfl, rfl, rfl, Nat.le_refl _, rfl, rfl, rfl, rfl, rfl⟩

theorem UVM_SPIN_LOOP_fields (env : SpinEnv) (s : SpinState) :
    (UVM_SPIN_LOOP env s).1 = (env.uvm_spin_loop s.spin_loop_calls s.spin).1 ∧
    (UVM_SPIN_LOOP env s).2.spin = (env.uvm_spin_loop s.spin_loop_calls s.spin).2 ∧
    (UVM_SPIN_LOOP env s).2.cond_evals = s.cond_evals ∧
    (UVM_SPIN_LOOP env s).2.body_runs = s.body_runs ∧
    (UVM_SPIN_LOOP env s).2.init_calls = s.init_calls ∧
    (UVM_SPIN_LOOP env s).2.spin_loop_calls = s.spin_loop_calls + 1 := by
  simp only [UVM_SPIN_LOOP, uvm_debug_prints_enabled, NV_GETTIME]
  split_ifs <;> exact ⟨rfl, rfl, rfl, rfl, rfl, rfl⟩

theorem spin_for_run (env : SpinEnv) (extra : Nat) :
    ∀ (n : Nat) (s : SpinState),
      (∀ j, j < n → env.cond (s.cond_evals + j) = true) →
      env.cond (s.cond_evals + n) = false →
      ∃ s', spin_for env (n + 1 + extra) s = some s' ∧
        s'.cond_evals = s.cond_evals + n + 1 ∧
        s'.body_runs = s.body_runs + n ∧
        s'.spin_loop_calls = s.spin_loop_calls + n ∧
        s'.init_calls = s.init_calls ∧
        s'.spin = spin_after env n s.spin_loop_calls s.spin
  | 0, s, _, hf => by
    refine ⟨{ s with cond_evals := s.cond_evals + 1 }, ?_, rfl, rfl, rfl, rfl, rfl⟩
    have hf' : env.cond s.cond_evals = false := hf
    have e : 0 + 1 + extra = extra + 1 := by omega
    rw [e]
    simp [spin_for, eval_cond, hf']
  | n + 1, s, ht, hf => by
    have h0 : env.cond s.cond_evals = true := ht 0 (Nat.succ_pos n)
    have f := UVM_SPIN_LOOP_fields env
      { s with cond_evals := s.cond_evals + 1, body_runs := s.body_runs + 1 }
    obtain ⟨_, f2, f3, f4, f5, f6⟩ := f
    obtain ⟨s', hs, c1, c2, c3, c4, c5⟩ := spin_for_run env extra n
      (UVM_SPIN_LOOP env
        { s with cond_evals := s.cond_evals + 1, body_runs := s.body_runs + 1 }).2
      (by
        intro j hj
        rw [f3]
        have := ht (j + 1) (by omega)
        simpa [Nat.add_assoc, Nat.add_comm 1 j] using this)
      (by
        rw [f3]
        simpa [Nat.add_assoc, Nat.add_comm 1 n] using hf)
    refine ⟨s', ?_, ?_, ?_, ?_, ?_, ?_⟩
    · have e : n + 1 + 1 + extra = (n + 1 + extra) + 1 := by omega
      rw [e]
      simp only [spin_for, eval_cond, h0, if_true]
      exact hs
    · rw [c1, f3]; simp only; omega
    · rw [c2, f4]; simp only; omega
    · rw [c3, f6]; simp only; omega
    · rw [c4, f5]
    · rw [c5, f2, f6]; rfl

/-- C12: a timeout warning never aborts a `UVM_SPIN_WHILE` wait. Let the
condition be true at its first evaluation `c0` and at the `n` evaluations
`c1 ... cn` after it, and false at the next one. Then, whatever function
`poll` stands for `uvm_spin_loop` (whatever statuses it returns and whatever
it does to the wait state), the wait ends, the wait state has been initialised
exactly once, the body has run exactly `n` times, `UVM_SPIN_LOOP` has been
invoked exactly `n` times, and the condition has been evaluated `n + 2` times,
the last evaluation being the first false one. -/
theorem UVM_SPIN_WHILE_timeout_never_aborts (env : SpinEnv) (s : SpinState) (n extra : Nat)
    (poll : Nat → uvm_spin_loop_t → NV_STATUS × uvm_spin_loop_t)
    (h0 : env.cond s.cond_evals = true)
    (ht : ∀ j, j < n → env.cond (s.cond_evals + 1 + j) = true)
    (hf : env.cond (s.cond_evals + 1 + n) = false) :
    ∃ s', UVM_SPIN_WHILE { env with uvm_spin_loop := poll } (n + 1 + extra) s = some s' ∧
      s'.init_calls = s.init_calls + 1 ∧
      s'.body_runs = s.body_runs + n ∧
      s'.spin_loop_calls = s.spin_loop_calls + n ∧
      s'.cond_evals = s.cond_evals + n + 2 := by
  obtain ⟨s', hs, c1, c2, c3, c4, _⟩ :=
    spin_for_run { env with uvm_spin_loop := poll } extra n
      (uvm_spin_loop_init { env with uvm_spin_loop := poll }
        { s with cond_evals := s.cond_evals + 1 })
      ht hf
  refine ⟨s', ?_, ?_, ?_, ?_, ?_⟩
  · simp only [UVM_SPIN_WHILE, eval_cond, h0, if_true]
    exact hs
  · rw [c4]; rfl
  · rw [c2]; rfl
  · rw [c3]; rfl
  · rw [c1]
    show s.cond_evals + 1 + n + 1 = s.cond_evals + n + 2
    omega

/-- Witness of C12: on the sample wait whose condition holds at its first four
evaluations, with a `uvm_spin_loop` that reports `NV_ERR_TIMEOUT_RETRY` at every
call, the body runs three times and `UVM_SPIN_LOOP` is invoked three times. -/
theorem UVM_SPIN_WHILE_timeout_never_aborts_witness :
    ∃ s', UVM_SPIN_WHILE
        { sample_env 4 with
          uvm_spin_loop := fun _ spin => (NV_STATUS.NV_ERR_TIMEOUT_RETRY, spin) }
        (3 + 1 + 0) sample_state = some s' ∧
      s'.init_calls = sample_state.init_calls + 1 ∧
      s'.body_runs = sample_state.body_runs + 3 ∧
      s'.spin_loop_calls = sample_state.spin_loop_calls + 3 ∧
      s'.cond_evals = sample_state.cond_evals + 3 + 2 :=
  UVM_SPIN_WHILE_timeout_never_aborts (sample_env 4) sample_state 3 0
    (fun _ spin => (NV_STATUS.NV_ERR_TIMEOUT_RETRY, spin))
    (by decide) (by intro j hj; interval_cases j <;> decide) (by decide)

theorem usub_of_le {w a b : Nat} (hab : b ≤ a) (ha : a < 2 ^ w) : usub w a b = a - b := by
  have hb : b < 2 ^ w := Nat.lt_of_le_of_lt hab ha
  unfold usub
  rw [wrap_of_lt ha, wrap_of_lt hb, mod_of_lt_two_mul (by omega)]
  split <;> omega

/-- C13, as stated, fails: when `uvm_spin_loop` returns `NV_ERR_TIMEOUT_RETRY`
and `uvm_debug_prints_enabled()` answers false, `UVM_SPIN_LOOP` logs nothing
and does not read the clock. -/
theorem UVM_SPIN_LOOP_silent_timeout :
    (UVM_SPIN_LOOP
      { sample_env 4 with
        uvm_spin_loop := fun _ spin => (NV_STATUS.NV_ERR_TIMEOUT_RETRY, spin)
        uvm_debug_prints_enabled := fun _ => false } sample_state).1 =
      NV_STATUS.NV_ERR_TIMEOUT_RETRY ∧
    (UVM_SPIN_LOOP
      { sample_env 4 with
        uvm_spin_loop := fun _ spin => (NV_STATUS.NV_ERR_TIMEOUT_RETRY, spin)
        uvm_debug_prints_enabled := fun _ => false } sample_state).2.log = [] ∧
    (UVM_SPIN_LOOP
      { sample_env 4 with
        uvm_spin_loop := fun _ spin => (NV_STATUS.NV_ERR_TIMEOUT_RETRY, spin)
        uvm_debug_prints_enabled := fun _ => false } sample_state).2.clock_reads = 0 := by
  decide

/-- C13, amended: for every status `st` returned by `uvm_spin_loop`,
`UVM_SPIN_LOOP(spin)` evaluates to `st` unchanged and leaves the wait state as
`uvm_spin_loop` left it. When `st = NV_ERR_TIMEOUT_RETRY`, a warning is logged
if and only if `uvm_debug_prints_enabled()` answers true, its duration being
`(now - start_time_ns) mod 2 ^ 64` divided by `10 ^ 9` and rounded down, where
`now` is the clock reading taken for the print; a stack dump follows if and
only if a second call of `uvm_debug_prints_enabled()` answers true. For every
other status nothing is logged, no stack dump is made, and neither the clock
nor `uvm_debug_prints_enabled()` is consulted. -/
theorem UVM_SPIN_LOOP_spec (env : SpinEnv) (s : SpinState) :
    (UVM_SPIN_LOOP env s).1 = (env.uvm_spin_loop s.spin_loop_calls s.spin).1 ∧
    (UVM_SPIN_LOOP env s).2.spin = (env.uvm_spin_loop s.spin_loop_calls s.spin).2 ∧
    ((env.uvm_spin_loop s.spin_loop_calls s.spin).1 = NV_STATUS.NV_ERR_TIMEOUT_RETRY →
      (UVM_SPIN_LOOP env s).2.log =
        s.log ++
          (if env.uvm_debug_prints_enabled s.prints_queries then
            [LogEvent.stuck_warning
              (usub 64 (wrap 64 (env.NV_GETTIME s.clock_reads))
                (env.uvm_spin_loop s.spin_loop_calls s.spin).2.start_time_ns / 10 ^ 9)]
           else []) ++
          (if env.uvm_debug_prints_enabled (s.prints_queries + 1) then
            [LogEvent.stack_dump]
           else []) ∧
      (UVM_SPIN_LOOP env s).2.clock_reads =
        s.clock_reads + (if env.uvm_debug_prints_enabled s.prints_queries then 1 else 0) ∧
      (UVM_SPIN_LOOP env s).2.prints_queries = s.prints_queries + 2) ∧
    ((env.uvm_spin_loop s.spin_loop_calls s.spin).1 ≠ NV_STATUS.NV_ERR_TIMEOUT_RETRY →
      (UVM_SPIN_LOOP env s).2.log = s.log ∧
      (UVM_SPIN_LOOP env s).2.clock_reads = s.clock_reads ∧
      (UVM_SPIN_LOOP env s).2.prints_queries = s.prints_queries) ∧
    (∀ now start : Nat, start ≤ now → now < 2 ^ 64 →
      usub 64 now start / 10 ^ 9 = (now - start) / 10 ^ 9) := by
  refine ⟨(UVM_SPIN_LOOP_fields env s).1, (UVM_SPIN_LOOP_fields env s).2.1, ?_, ?_, ?_⟩
  · intro h
    simp only [UVM_SPIN_LOOP, uvm_debug_prints_enabled, NV_GETTIME, h, if_true]
    by_cases h1 : env.uvm_debug_prints_enabled s.prints_queries <;>
      by_cases h2 : env.uvm_debug_prints_enabled (s.prints_queries + 1) <;>
      simp [h1, h2]
  · intro h
    simp [UVM_SPIN_LOOP, h]
  · intro now start h1 h2
    rw [usub_of_le h1 h2]

/-- Witness of the amended C13: on the sample wait, whose debug prints are
enabled and whose clock reads 7 s, a `uvm_spin_loop` that returns
`NV_ERR_TIMEOUT_RETRY` makes `UVM_SPIN_LOOP` log a warning of 6 s (the wait state
holds the start time 5 ns) and a stack dump. -/
theorem UVM_SPIN_LOOP_spec_witness :
    ((sample_env 4).uvm_spin_loop 1 sample_state.spin).1 = NV_STATUS.NV_ERR_TIMEOUT_RETRY ∧
    (UVM_SPIN_LOOP (sample_env 4) { sample_state with spin_loop_calls := 1 }).2.log =
      [LogEvent.stuck_warning 6, LogEvent.stack_dump] :=
  ⟨by decide,
    ((UVM_SPIN_LOOP_spec (sample_env 4) { sample_state with spin_loop_calls := 1 }).2.2.1
      (by decide)).1⟩

/-! ## Cache destruction -/

/-- C14: `kmem_cache_destroy_safe` is idempotent and nulls the caller's handle.
For every non-null slot pointer `ppCache`: after the call the slot holds `NULL`
and no other address has changed; `kmem_cache_destroy` has been called exactly
once, on the old handle, if the slot held a handle, and not at all if it held
`NULL`; and a second call on the same slot changes nothing, so that two calls
leave the same state and the same single destroy as one. When the slot
pointer itself is `NULL` the call does nothing. -/
theorem kmem_cache_destroy_safe_idempotent (ppCache : Nat) (st : CacheState)
    (hp : ppCache ≠ 0) :
    (kmem_cache_destroy_safe ppCache st).mem ppCache = 0 ∧
    (∀ p, p ≠ ppCache → (kmem_cache_destroy_safe ppCache st).mem p = st.mem p) ∧
    (st.mem ppCache ≠ 0 →
      (kmem_cache_destroy_safe ppCache st).destroyed = st.destroyed ++ [st.mem ppCache]) ∧
    (st.mem ppCache = 0 → (kmem_cache_destroy_safe ppCache st).destroyed = st.destroyed) ∧
    kmem_cache_destroy_safe ppCache (kmem_cache_destroy_safe ppCache st) =
      kmem_cache_destroy_safe ppCache st ∧
    kmem_cache_destroy_safe 0 st = st := by
  refine ⟨?_, ?_, ?_, ?_, ?_, ?_⟩
  · simp [kmem_cache_destroy_safe, hp]
  · intro p hne
    by_cases h : st.mem ppCache = 0 <;>
      simp [kmem_cache_destroy_safe, kmem_cache_destroy, hp, h, hne]
  · intro h
    simp [kmem_cache_destroy_safe, kmem_cache_destroy, hp, h]
  · intro h
    simp [kmem_cache_destroy_safe, hp, h]
  · by_cases h : st.mem ppCache = 0
    · simp only [kmem_cache_destroy_safe, kmem_cache_destroy, hp, h, ne_eq, not_false_eq_true,
        if_true, not_true_eq_false, if_false, CacheState.mk.injEq, and_true]
      funext p
      split <;> rfl
    · simp only [kmem_cache_destroy_safe, kmem_cache_destroy, hp, h, ne_eq, not_false_eq_true,
        if_true, not_true_eq_false, if_false, CacheState.mk.injEq, and_true]
      funext p
      split <;> rfl
  · simp [kmem_cache_destroy_safe]

/-- Witness of C14 on the sample memory, whose slot at address `8` holds the
handle `77`: one call nulls the slot and destroys `77` once, and so do two. -/
theorem kmem_cache_destroy_safe_idempotent_witness :
    (8 : Nat) ≠ 0 ∧ sample_cache.mem 8 ≠ 0 ∧
    (kmem_cache_destroy_safe 8 sample_cache).mem 8 = 0 ∧
    (kmem_cache_destroy_safe 8 sample_cache).destroyed = [77] ∧
    (kmem_cache_destroy_safe 8 (kmem_cache_destroy_safe 8 sample_cache)).destroyed = [77] :=
  have h := kmem_cache_destroy_safe_idempotent 8 sample_cache (by decide)
  ⟨by decide, by decide, h.1, h.2.2.1 (by decide), h.2.2.2.2.1 ▸ h.2.2.1 (by decide)⟩

/-! ## Assertions -/

theorem land_pred_eq_zero : ∀ (m : Nat), m ≠ 0 → m &&& (m - 1) = 0 → ∃ k, m = 2 ^ k := by
  intro m
  induction m using Nat.strong_induction_on with
  | _ m ih =>
    intro hm h
    have hd : m / 2 &&& (m - 1) / 2 = 0 := by
      rw [← Nat.and_div_two, h]
    by_cases hodd : m % 2 = 1
    · have e : (m - 1) / 2 = m / 2 := by omega
      rw [e, Nat.and_self] at hd
      exact ⟨0, by omega⟩
    · have e : (m - 1) / 2 = m / 2 - 1 := by omega
      rw [e] at hd
      obtain ⟨k, hk⟩ := ih (m / 2) (by omega) (by omega) hd
      refine ⟨k + 1, ?_⟩
      rw [Nat.pow_succ, ← hk]
      omega

theorem two_pow_land_pred (k : Nat) : 2 ^ k &&& (2 ^ k - 1) = 0 := by
  rw [Nat.and_pow_two_sub_one_eq_mod, Nat.mod_self]

theorem usub_one_of_pos {w m : Nat} (hm : m < 2 ^ w) (h0 : m ≠ 0) : usub w m 1 = m - 1 := by
  have h2 : 1 < 2 ^ w := by omega
  unfold usub
  rw [wrap_of_lt hm, wrap_of_lt h2, mod_of_lt_two_mul (by omega)]
  split <;> omega

theorem wrap_lt (w v : Nat) : wrap w v < 2 ^ w := Nat.mod_lt _ (Nat.pow_pos (by decide))

theorem is_power_of_2_iff (n : Nat) :
    is_power_of_2 n = true ↔ ∃ k, k < 64 ∧ wrap 64 n = 2 ^ k := by
  have hlt := wrap_lt 64 n
  have hsub : usub 64 n 1 = usub 64 (wrap 64 n) 1 := by
    simp [usub, wrap]
  unfold is_power_of_2
  rw [hsub]
  constructor
  · intro h
    simp only [Bool.and_eq_true, bne_iff_ne, ne_eq, beq_iff_eq] at h
    obtain ⟨h0, h1⟩ := h
    rw [usub_one_of_pos hlt h0] at h1
    obtain ⟨k, hk⟩ := land_pred_eq_zero _ h0 h1
    refine ⟨k, ?_, hk⟩
    by_contra hge
    have : 2 ^ 64 ≤ 2 ^ k := Nat.pow_le_pow_right (by decide) (by omega)
    omega
  · rintro ⟨k, _, hk⟩
    have h0 : wrap 64 n ≠ 0 := by
      rw [hk]
      exact Nat.pos_iff_ne_zero.mp (Nat.pow_pos (by decide))
    simp only [Bool.and_eq_true, bne_iff_ne, ne_eq, beq_iff_eq]
    refine ⟨h0, ?_⟩
    rw [usub_one_of_pos hlt h0, hk]
    exact two_pow_land_pred k

theorem is_power_of_2_wrap_32_iff (n : Nat) :
    is_power_of_2 (wrap 32 n) = true ↔ ∃ k, k < 32 ∧ wrap 32 n = 2 ^ k := by
  have hlt := wrap_lt 32 n
  have h64 : wrap 64 (wrap 32 n) = wrap 32 n := wrap_of_lt (by omega)
  rw [is_power_of_2_iff, h64]
  constructor
  · rintro ⟨k, _, hk⟩
    refine ⟨k, ?_, hk⟩
    by_contra hge
    have : 2 ^ 32 ≤ 2 ^ k := Nat.pow_le_pow_right (by decide) (by omega)
    omega
  · rintro ⟨k, hk32, hk⟩
    exact ⟨k, by omega, hk⟩

theorem is_power_of_2_wrap_64_iff (n : Nat) :
    is_power_of_2 (wrap 64 n) = true ↔ ∃ k, k < 64 ∧ wrap 64 n = 2 ^ k := by
  have h64 : wrap 64 (wrap 64 n) = wrap 64 n := wrap_of_lt (wrap_lt 64 n)
  rw [is_power_of_2_iff, h64]

theorem is_power_of_2_zero : is_power_of_2 0 = false := by decide

theorem UVM_ASSERT_debug (prints hook : Nat → Bool) (expr : Bool) (d : DiagState) :
    UVM_ASSERT true prints hook expr d =
      if expr then (true, assert_passed d) else (hook d.hook_calls, assert_failed prints d) := by
  cases expr
  · by_cases h : prints d.prints_queries <;>
      simp [UVM_ASSERT, on_uvm_assert, assert_failed, failure_events, h]
  · simp [UVM_ASSERT, assert_passed]

theorem UVM_ASSERT_release (prints hook : Nat → Bool) (expr : Bool) (d : DiagState) :
    UVM_ASSERT false prints hook expr d = (true, d) := by
  simp [UVM_ASSERT]

theorem fls_le : ∀ (w m : Nat), fls w m ≤ w
  | 0, _ => Nat.le_refl 0
  | w + 1, m => by
    rw [fls]
    split
    · exact Nat.zero_le _
    · exact Nat.succ_le_succ (fls_le w (m / 2))

theorem fls_pos {w m : Nat} (hw : 0 < w) (hm : m ≠ 0) : 1 ≤ fls w m := by
  obtain ⟨v, rfl⟩ : ∃ v, w = v + 1 := ⟨w - 1, by omega⟩
  rw [fls, if_neg hm]
  exact Nat.succ_le_succ (Nat.zero_le _)

theorem ushr_ilog2_int_of_ne_zero {w : Nat} (n den : Nat) (hw : 0 < w)
    (hden : wrap w den ≠ 0) :
    ushr w n (ilog2_int w den) = some (wrap w n >>> ilog2 w den) := by
  have h1 := fls_pos hw hden
  have h2 := fls_le w (wrap w den)
  unfold ushr ilog2_int ilog2
  have hc : 0 ≤ ((fls w (wrap w den) : Nat) : Int) - 1 ∧
      ((fls w (wrap w den) : Nat) : Int) - 1 < (w : Int) := by omega
  have ht : (((fls w (wrap w den) : Nat) : Int) - 1).toNat = fls w (wrap w den) - 1 := by omega
  rw [if_pos hc, ht]

theorem ushr_ilog2_int_of_zero {w : Nat} (n den : Nat) (hden : wrap w den = 0) :
    ushr w n (ilog2_int w den) = none := by
  unfold ushr ilog2_int
  rw [hden, fls_zero]
  simp

theorem div_run_debug (w n den : Nat) (prints hook : Nat → Bool) (d : DiagState)
    (hw : 0 < w) :
    (let r1 := UVM_ASSERT true prints hook (is_power_of_2 (wrap w den)) d
     if r1.1 then
       let r2 := UVM_ASSERT true prints hook (wrap w den != 0) r1.2
       if r2.1 then
         match ushr w n (ilog2_int w den) with
         | some v => (Outcome.value (wrap w v), r2.2)
         | none => (Outcome.undefined, r2.2)
       else
         (Outcome.halted, r2.2)
     else
       (Outcome.halted, r1.2)) =
      if is_power_of_2 (wrap w den) then
        (Outcome.value (wrap w (wrap w n >>> ilog2 w den)), assert_passed (assert_passed d))
      else if !hook d.hook_calls then
        (Outcome.halted, assert_failed prints d)
      else if wrap w den != 0 then
        (Outcome.value (wrap w (wrap w n >>> ilog2 w den)),
          assert_passed (assert_failed prints d))
      else
        (if hook (d.hook_calls + 1) then Outcome.undefined else Outcome.halted,
          assert_failed prints (assert_failed prints d)) := by
  simp only [UVM_ASSERT_debug]
  by_cases hp : is_power_of_2 (wrap w den) = true
  · have h0 : wrap w den ≠ 0 := by
      intro h0
      rw [h0] at hp
      exact absurd hp (by decide)
    simp [hp, h0, ushr_ilog2_int_of_ne_zero n den hw h0]
  · by_cases hh : hook d.hook_calls = true
    · by_cases h0 : wrap w den = 0
      · by_cases hh2 : hook (d.hook_calls + 1) = true <;>
          simp [is_power_of_2_zero, hh, h0, hh2, ushr_ilog2_int_of_zero n den h0, assert_failed]
      · simp [hp, hh, h0, ushr_ilog2_int_of_ne_zero n den hw h0]
    · simp [hp, hh]

theorem div_run_release (w n den : Nat) (prints hook : Nat → Bool) (d : DiagState)
    (hw : 0 < w) :
    (let r1 := UVM_ASSERT false prints hook (is_power_of_2 (wrap w den)) d
     if r1.1 then
       let r2 := UVM_ASSERT false prints hook (wrap w den != 0) r1.2
       if r2.1 then
         match ushr w n (ilog2_int w den) with
         | some v => (Outcome.value (wrap w v), r2.2)
         | none => (Outcome.undefined, r2.2)
       else
         (Outcome.halted, r2.2)
     else
       (Outcome.halted, r1.2)) =
      (if wrap w den != 0 then Outcome.value (wrap w (wrap w n >>> ilog2 w den))
       else Outcome.undefined, d) := by
  simp only [UVM_ASSERT_release]
  by_cases h0 : wrap w den = 0
  · simp [h0, ushr_ilog2_int_of_zero n den h0]
  · simp [h0, ushr_ilog2_int_of_ne_zero n den hw h0]

/-- C15, as stated, fails, in two ways. In a debug build `UVM_ALIGN_DOWN(7, 3)`,
whose alignment is not a power of two, runs through the failure path of its
assertion and, when `on_uvm_assert` returns as the no-op its declaration
describes, goes on to produce the value `7 & ~2 = 5` instead of halting. And
with debug prints off the failure path makes no error print, whether
`on_uvm_assert` returns or not. -/
theorem UVM_ALIGN_DOWN_run_goes_on :
    (¬ ∃ k, k < 64 ∧ wrap 64 3 = 2 ^ k) ∧
    UVM_ALIGN_DOWN_run true (fun _ => true) (fun _ => true) 7 3 no_diag =
      (Outcome.value 5,
        { expr_evals := 1, prints_queries := 1, hook_calls := 1,
          log := [DiagEvent.assert_print, DiagEvent.stack_dump, DiagEvent.hook_call] }) ∧
    UVM_ALIGN_DOWN_run true (fun _ => false) (fun _ => false) 7 3 no_diag =
      (Outcome.halted,
        { expr_evals := 1, prints_queries := 1, hook_calls := 1,
          log := [DiagEvent.stack_dump, DiagEvent.hook_call] }) := by
  decide

/-- C15, amended: for `UVM_ALIGN_DOWN`, `UVM_ALIGN_UP` and `uvm_div_pow2_32/64`,
in a debug build the failure path of the assertion is taken if and only if the
alignment or divisor is not a power of two (zero included): it always makes the
stack dump and the call of `on_uvm_assert`, and makes the error print only if
`uvm_debug_prints_enabled()` answers true. The operation then halts if that
call of `on_uvm_assert` does not return; if it returns (the header declares
`on_uvm_assert` as a no-op to set a breakpoint on) the operation goes on and
returns the same bitmask or shift value as a release build. For a zero
divisor, if the run gets that far, the second assertion of
`uvm_div_pow2_32/64` takes the failure path once more, and the shift by
`ilog2(0) = -1` that follows is undefined, in either build. In a release build
the failure path is never taken, the asserted expression is not evaluated, and
the bitmask or shift value is returned (for a zero divisor the shift is
undefined). -/
theorem assert_failure_path (prints hook : Nat → Bool) (d : DiagState) (x a n den : Nat) :
    ((is_power_of_2 (wrap 64 a) = true ↔ ∃ k, k < 64 ∧ wrap 64 a = 2 ^ k) ∧
     (is_power_of_2 (wrap 32 den) = true ↔ ∃ k, k < 32 ∧ wrap 32 den = 2 ^ k) ∧
     (is_power_of_2 (wrap 64 den) = true ↔ ∃ k, k < 64 ∧ wrap 64 den = 2 ^ k)) ∧
    (UVM_ALIGN_DOWN_run true prints hook x a d =
        (if is_power_of_2 (wrap 64 a) then
          (Outcome.value (UVM_ALIGN_DOWN 64 x a), assert_passed d)
         else
          (if hook d.hook_calls then Outcome.value (UVM_ALIGN_DOWN 64 x a)
           else Outcome.halted,
           assert_failed prints d)) ∧
     UVM_ALIGN_UP_run true prints hook x a d =
        (if is_power_of_2 (wrap 64 a) then
          (Outcome.value (UVM_ALIGN_UP 64 x a), assert_passed d)
         else
          (if hook d.hook_calls then Outcome.value (UVM_ALIGN_UP 64 x a)
           else Outcome.halted,
           assert_failed prints d)) ∧
     UVM_ALIGN_DOWN_run false prints hook x a d = (Outcome.value (UVM_ALIGN_DOWN 64 x a), d) ∧
     UVM_ALIGN_UP_run false prints hook x a d = (Outcome.value (UVM_ALIGN_UP 64 x a), d)) ∧
    (uvm_div_pow2_32_run true prints hook n den d =
        (if is_power_of_2 (wrap 32 den) then
          (Outcome.value (uvm_div_pow2_32 n den), assert_passed (assert_passed d))
         else if !hook d.hook_calls then
          (Outcome.halted, assert_failed prints d)
         else if wrap 32 den != 0 then
          (Outcome.value (uvm_div_pow2_32 n den), assert_passed (assert_failed prints d))
         else
          (if hook (d.hook_calls + 1) then Outcome.undefined else Outcome.halted,
           assert_failed prints (assert_failed prints d))) ∧
     uvm_div_pow2_64_run true prints hook n den d =
        (if is_power_of_2 (wrap 64 den) then
          (Outcome.value (uvm_div_pow2_64 n den), assert_passed (assert_passed d))
         else if !hook d.hook_calls then
          (Outcome.halted, assert_failed prints d)
         else if wrap 64 den != 0 then
          (Outcome.value (uvm_div_pow2_64 n den), assert_passed (assert_failed prints d))
         else
          (if hook (d.hook_calls + 1) then Outcome.undefined else Outcome.halted,
           assert_failed prints (assert_failed prints d))) ∧
     uvm_div_pow2_32_run false prints hook n den d =
        (if wrap 32 den != 0 then Outcome.value (uvm_div_pow2_32 n den)
         else Outcome.undefined, d) ∧
     uvm_div_pow2_64_run false prints hook n den d =
        (if wrap 64 den != 0 then Outcome.value (uvm_div_pow2_64 n den)
         else Outcome.undefined, d)) := by
  refine ⟨⟨is_power_of_2_wrap_64_iff _, is_power_of_2_wrap_32_iff _, is_power_of_2_wrap_64_iff _⟩,
    ⟨?_, ?_, ?_, ?_⟩, ⟨?_, ?_, ?_, ?_⟩⟩
  · simp only [UVM_ALIGN_DOWN_run, UVM_ASSERT_debug, UVM_ALIGN_DOWN]
    by_cases hp : is_power_of_2 (wrap 64 a) = true
    · simp [hp]
    · by_cases hh : hook d.hook_calls = true <;> simp [hp, hh]
  · simp only [UVM_ALIGN_UP_run, UVM_ASSERT_debug, UVM_ALIGN_UP]
    by_cases hp : is_power_of_2 (wrap 64 a) = true
    · simp [hp]
    · by_cases hh : hook d.hook_calls = true <;> simp [hp, hh]
  · simp [UVM_ALIGN_DOWN_run, UVM_ASSERT_release, UVM_ALIGN_DOWN]
  · simp [UVM_ALIGN_UP_run, UVM_ASSERT_release, UVM_ALIGN_UP]
  · exact div_run_debug 32 n den prints hook d (by decide)
  · exact div_run_debug 64 n den prints hook d (by decide)
  · exact div_run_release 32 n den prints hook d (by decide)
  · exact div_run_release 64 n den prints hook d (by decide)

/-! ## The polling step and the escalation of a long wait -/

theorem uvm_spin_loop_model_cases (threshold_ns now : Nat) (spin : uvm_spin_loop_t) :
    ((uvm_spin_loop_model threshold_ns now spin).1 = NV_STATUS.NV_ERR_TIMEOUT_RETRY ↔
      usub 64 (wrap 64 now) spin.print_time_ns > threshold_ns) ∧
    ((uvm_spin_loop_model threshold_ns now spin).1 = NV_STATUS.NV_ERR_TIMEOUT_RETRY →
      (uvm_spin_loop_model threshold_ns now spin).2 =
        { spin with print_time_ns := wrap 64 now }) ∧
    ((uvm_spin_loop_model threshold_ns now spin).1 ≠ NV_STATUS.NV_ERR_TIMEOUT_RETRY →
      (uvm_spin_loop_model threshold_ns now spin).1 = NV_STATUS.NV_OK ∧
      (uvm_spin_loop_model threshold_ns now spin).2 = spin) := by
  unfold uvm_spin_loop_model
  by_cases h : usub 64 (wrap 64 now) spin.print_time_ns > threshold_ns
  · simp [h]
  · simp [h]

theorem poll_statuses_timeout (env : SpinEnv) (threshold_ns : Nat) (T : Nat → Nat)
    (hpoll : ∀ k spin, env.uvm_spin_loop k spin = uvm_spin_loop_model threshold_ns (T k) spin) :
    ∀ (n k : Nat) (spin : uvm_spin_loop_t),
      usub 64 (wrap 64 (T (k + n))) spin.print_time_ns > threshold_ns →
      NV_STATUS.NV_ERR_TIMEOUT_RETRY ∈ poll_statuses env (n + 1) k spin
  | 0, k, spin, h => by
    have c := (uvm_spin_loop_model_cases threshold_ns (T k) spin).1.2 h
    simp [poll_statuses, hpoll, c]
  | n + 1, k, spin, h => by
    by_cases c : (uvm_spin_loop_model threshold_ns (T k) spin).1 = NV_STATUS.NV_ERR_TIMEOUT_RETRY
    · rw [poll_statuses, hpoll]
      exact List.mem_cons.mpr (Or.inl c.symm)
    · have e := ((uvm_spin_loop_model_cases threshold_ns (T k) spin).2.2 c).2
      rw [poll_statuses, hpoll, e]
      refine List.mem_cons_of_mem _ ?_
      apply poll_statuses_timeout env threshold_ns T hpoll n (k + 1) spin
      have e2 : k + 1 + n = k + (n + 1) := by omega
      rw [e2]
      exact h

theorem spin_after_model (env : SpinEnv) (threshold_ns : Nat) (T : Nat → Nat)
    (hpoll : ∀ k spin, env.uvm_spin_loop k spin = uvm_spin_loop_model threshold_ns (T k) spin) :
    ∀ (n k : Nat) (spin : uvm_spin_loop_t),
      (∀ j, j < n → spin.start_time_ns < T (k + j) ∧ T (k + j) < 2 ^ 64) →
      (spin_after env n k spin).start_time_ns = spin.start_time_ns ∧
      (spin.start_time_ns < spin.print_time_ns →
        spin.start_time_ns < (spin_after env n k spin).print_time_ns) ∧
      (NV_STATUS.NV_ERR_TIMEOUT_RETRY ∈ poll_statuses env n k spin →
        spin.start_time_ns < (spin_after env n k spin).print_time_ns)
  | 0, k, spin, _ => by
    simp [spin_after, poll_statuses]
  | n + 1, k, spin, hT => by
    have hk : spin.start_time_ns < T k ∧ T k < 2 ^ 64 := hT 0 (Nat.succ_pos n)
    have hT' : ∀ j, j < n → spin.start_time_ns < T (k + 1 + j) ∧ T (k + 1 + j) < 2 ^ 64 := by
      intro j hj
      have := hT (j + 1) (by omega)
      have e : k + 1 + j = k + (j + 1) := by omega
      rw [e]
      exact this
    by_cases c : (uvm_spin_loop_model threshold_ns (T k) spin).1 = NV_STATUS.NV_ERR_TIMEOUT_RETRY
    · have e := (uvm_spin_loop_model_cases threshold_ns (T k) spin).2.1 c
      have ih := spin_after_model env threshold_ns T hpoll n (k + 1)
        { spin with print_time_ns := wrap 64 (T k) } hT'
      have hgt : spin.start_time_ns < wrap 64 (T k) := by
        rw [wrap_of_lt hk.2]
        exact hk.1
      rw [spin_after, poll_statuses, hpoll, e]
      exact ⟨ih.1, fun _ => ih.2.1 hgt, fun _ => ih.2.1 hgt⟩
    · have e := (uvm_spin_loop_model_cases threshold_ns (T k) spin).2.2 c
      have ih := spin_after_model env threshold_ns T hpoll n (k + 1) spin hT'
      rw [spin_after, poll_statuses, hpoll, e.2]
      refine ⟨ih.1, ih.2.1, ?_⟩
      intro hmem
      rcases List.mem_cons.mp hmem with h | h
      · exact absurd h.symm c
      · exact ih.2.2 h

theorem mul_gt_of_gt_div {threshold interval n : Nat} (hi : 0 < interval)
    (hn : n > threshold / interval) : interval * n > threshold := by
  have h1 : threshold < interval * (threshold / interval + 1) := by
    have := Nat.div_add_mod threshold interval
    have := Nat.mod_lt threshold hi
    rw [Nat.mul_add, Nat.mul_one]
    omega
  exact Nat.lt_of_lt_of_le h1 (Nat.mul_le_mul_left interval hn)

/-- C16: the polling step escalates and the wait still completes. The body of
`uvm_spin_loop` is modelled from the spec. (1) It returns
`NV_ERR_TIMEOUT_RETRY`, and then sets `print_time_ns` to the current time,
exactly when the time since the last report exceeds the threshold, and it
returns `NV_OK` and leaves the wait state alone otherwise. (2) Take a wait
whose `uvm_spin_loop` follows that model with clock readings `T k`, whose
condition holds at its first evaluation and at the `n` next ones and fails at
the one after, so that `n` poll calls are made, where the `j`-th poll call reads
the clock at least `interval_ns * (j + 1)` after the initialisation, and where
`n > threshold_ns / interval_ns`. Then the wait ends after `n` body runs and
`n` poll calls, at least one of these poll calls returned
`NV_ERR_TIMEOUT_RETRY`, and the wait state it ends with records a report made
after the start. -/
theorem uvm_spin_loop_escalates (env : SpinEnv) (s : SpinState)
    (threshold_ns interval_ns n extra : Nat) (T : Nat → Nat)
    (hpoll : ∀ k spin, env.uvm_spin_loop k spin = uvm_spin_loop_model threshold_ns (T k) spin)
    (hT : ∀ j, j < n →
      wrap 64 (env.NV_GETTIME s.clock_reads) + interval_ns * (j + 1) ≤ T (s.spin_loop_calls + j) ∧
      T (s.spin_loop_calls + j) < 2 ^ 64)
    (hi : 0 < interval_ns) (hn : n > threshold_ns / interval_ns)
    (h0 : env.cond s.cond_evals = true)
    (ht : ∀ j, j < n → env.cond (s.cond_evals + 1 + j) = true)
    (hf : env.cond (s.cond_evals + 1 + n) = false) :
    (∀ now spin,
      ((uvm_spin_loop_model threshold_ns now spin).1 = NV_STATUS.NV_ERR_TIMEOUT_RETRY ↔
        usub 64 (wrap 64 now) spin.print_time_ns > threshold_ns) ∧
      ((uvm_spin_loop_model threshold_ns now spin).1 = NV_STATUS.NV_ERR_TIMEOUT_RETRY →
        (uvm_spin_loop_model threshold_ns now spin).2 =
          { spin with print_time_ns := wrap 64 now }) ∧
      ((uvm_spin_loop_model threshold_ns now spin).1 ≠ NV_STATUS.NV_ERR_TIMEOUT_RETRY →
        (uvm_spin_loop_model threshold_ns now spin).1 = NV_STATUS.NV_OK ∧
        (uvm_spin_loop_model threshold_ns now spin).2 = spin)) ∧
    ∃ s', UVM_SPIN_WHILE env (n + 1 + extra) s = some s' ∧
      s'.body_runs = s.body_runs + n ∧
      s'.spin_loop_calls = s.spin_loop_calls + n ∧
      s'.spin = spin_after env n s.spin_loop_calls
        (uvm_spin_loop_init env { s with cond_evals := s.cond_evals + 1 }).spin ∧
      NV_STATUS.NV_ERR_TIMEOUT_RETRY ∈ poll_statuses env n s.spin_loop_calls
        (uvm_spin_loop_init env { s with cond_evals := s.cond_evals + 1 }).spin ∧
      s'.spin.start_time_ns < s'.spin.print_time_ns := by
  refine ⟨fun now spin => uvm_spin_loop_model_cases threshold_ns now spin, ?_⟩
  obtain ⟨s', hs, _, c2, c3, _, c5⟩ :=
    spin_for_run env extra n (uvm_spin_loop_init env { s with cond_evals := s.cond_evals + 1 })
      ht hf
  have hmem : NV_STATUS.NV_ERR_TIMEOUT_RETRY ∈ poll_statuses env n s.spin_loop_calls
      (uvm_spin_loop_init env { s with cond_evals := s.cond_evals + 1 }).spin := by
    have hpos : 0 < n := Nat.lt_of_le_of_lt (Nat.zero_le _) hn
    obtain ⟨m, rfl⟩ : ∃ m, n = m + 1 := ⟨n - 1, by omega⟩
    apply poll_statuses_timeout env threshold_ns T hpoll m s.spin_loop_calls
    have hlast := hT m (by omega)
    have hmul := mul_gt_of_gt_div hi hn
    have hstart :
        (uvm_spin_loop_init env { s with cond_evals := s.cond_evals + 1 }).spin.print_time_ns =
          wrap 64 (env.NV_GETTIME s.clock_reads) := rfl
    rw [hstart, wrap_of_lt hlast.2, usub_of_le (by omega) hlast.2]
    omega
  have hafter := spin_after_model env threshold_ns T hpoll n s.spin_loop_calls
    (uvm_spin_loop_init env { s with cond_evals := s.cond_evals + 1 }).spin
    (by
      intro j hj
      have h := hT j hj
      have hstart :
          (uvm_spin_loop_init env { s with cond_evals := s.cond_evals + 1 }).spin.start_time_ns =
            wrap 64 (env.NV_GETTIME s.clock_reads) := rfl
      have hpos : 0 < interval_ns * (j + 1) := Nat.mul_pos hi (Nat.succ_pos j)
      rw [hstart]
      exact ⟨by omega, h.2⟩)
  have c5' : s'.spin = spin_after env n s.spin_loop_calls
      (uvm_spin_loop_init env { s with cond_evals := s.cond_evals + 1 }).spin := by
    rw [c5]; rfl
  refine ⟨s', ?_, ?_, ?_, c5', hmem, ?_⟩
  · simp only [UVM_SPIN_WHILE, eval_cond, h0, if_true]
    exact hs
  · rw [c2]; rfl
  · rw [c3]; rfl
  · rw [c5', hafter.1]
    exact hafter.2.2 hmem

/-- Witness of C16: the simulated wait with threshold `30`, interval `10`,
initialised at time `100`, whose condition fails only at its sixth evaluation:
four poll calls are made, `4 > 30 / 10`, and one of them returns
`NV_ERR_TIMEOUT_RETRY`. -/
theorem uvm_spin_loop_escalates_witness :
    ∃ s', UVM_SPIN_WHILE (sim_env 30 10 100 4) (4 + 1 + 0) sample_state = some s' ∧
      s'.body_runs = sample_state.body_runs + 4 ∧
      s'.spin_loop_calls = sample_state.spin_loop_calls + 4 ∧
      s'.spin = spin_after (sim_env 30 10 100 4) 4 sample_state.spin_loop_calls
        (uvm_spin_loop_init (sim_env 30 10 100 4)
          { sample_state with cond_evals := sample_state.cond_evals + 1 }).spin ∧
      NV_STATUS.NV_ERR_TIMEOUT_RETRY ∈ poll_statuses (sim_env 30 10 100 4) 4
        sample_state.spin_loop_calls
        (uvm_spin_loop_init (sim_env 30 10 100 4)
          { sample_state with cond_evals := sample_state.cond_evals + 1 }).spin ∧
      s'.spin.start_time_ns < s'.spin.print_time_ns :=
  (uvm_spin_loop_escalates (sim_env 30 10 100 4) sample_state 30 10 4 0
    (fun k => 100 + 10 * (k + 1)) (fun _ _ => rfl)
    (by intro j hj; interval_cases j <;> decide) (by decide) (by decide) (by decide)
    (by intro j hj; interval_cases j <;> decide) (by decide)).2

/-! ## Canonical form: the low 49 bits -/

theorem canonical_form_testBit (x i : Nat) (h49 : 49 ≤ i) (h63 : i ≤ 63) :
    (uvm_address_get_canonical_form true x).testBit i = x.testBit 48 := by
  rw [canonical_form_eq]
  simp only [Nat.testBit_to_div_mod, decide_eq_decide]
  norm_num
  interval_cases i <;> norm_num <;> split_ifs <;> omega

theorem canonical_form_fixed_of_bits (x : Nat) (hx : x < 2 ^ 64)
    (h : ∀ i, 49 ≤ i → i ≤ 63 → x.testBit i = x.testBit 48) :
    uvm_address_get_canonical_form true x = x := by
  have b49 := h 49 (by decide) (by decide)
  have b50 := h 50 (by decide) (by decide)
  have b51 := h 51 (by decide) (by decide)
  have b52 := h 52 (by decide) (by decide)
  have b53 := h 53 (by decide) (by decide)
  have b54 := h 54 (by decide) (by decide)
  have b55 := h 55 (by decide) (by decide)
  have b56 := h 56 (by decide) (by decide)
  have b57 := h 57 (by decide) (by decide)
  have b58 := h 58 (by decide) (by decide)
  have b59 := h 59 (by decide) (by decide)
  have b60 := h 60 (by decide) (by decide)
  have b61 := h 61 (by decide) (by decide)
  have b62 := h 62 (by decide) (by decide)
  have b63 := h 63 (by decide) (by decide)
  simp only [Nat.testBit_to_div_mod, decide_eq_decide] at b49 b50 b51 b52 b53 b54 b55 b56
  simp only [Nat.testBit_to_div_mod, decide_eq_decide] at b57 b58 b59 b60 b61 b62 b63
  rw [canonical_form_eq]
  norm_num at *
  split_ifs <;> omega

/-- C17: on the sign-extending variant, `uvm_address_get_canonical_form`
preserves the low 49 bits of every 64-bit address `x`; its result is the 49-bit
sign extension of `x`, that is the low 49 bits of `x` read as a signed 49-bit
number and converted to `NvU64`; and it returns `x` unchanged if and only if
bits 49 through 63 of `x` all equal bit 48 of `x`. -/
theorem uvm_address_get_canonical_form_low_bits (x : Nat) (hx : x < 2 ^ 64) :
    uvm_address_get_canonical_form true x % 2 ^ 49 = x % 2 ^ 49 ∧
    uvm_address_get_canonical_form true x =
      toU64 (if x % 2 ^ 49 < 2 ^ 48 then ((x % 2 ^ 49 : Nat) : Int)
             else ((x % 2 ^ 49 : Nat) : Int) - 2 ^ 49) ∧
    (uvm_address_get_canonical_form true x = x ↔
      ∀ i, 49 ≤ i → i ≤ 63 → x.testBit i = x.testBit 48) := by
  refine ⟨?_, ?_, ?_, ?_⟩
  · rw [canonical_form_eq]
    norm_num
    split_ifs <;> omega
  · rw [canonical_form_eq]
    unfold toU64
    norm_num
    split_ifs <;> omega
  · intro h i h49 h63
    have := canonical_form_testBit x i h49 h63
    rw [h] at this
    exact this
  · exact canonical_form_fixed_of_bits x hx

/-- Witness of C17 at `x = 2 ^ 48`: the low 49 bits are kept and the result is
not `x`, bit 63 of `x` being clear while bit 48 is set. -/
theorem uvm_address_get_canonical_form_low_bits_witness :
    2 ^ 48 < 2 ^ 64 ∧
    uvm_address_get_canonical_form true (2 ^ 48) % 2 ^ 49 = 2 ^ 48 % 2 ^ 49 ∧
    (uvm_address_get_canonical_form true (2 ^ 48) = 2 ^ 48 ↔
      ∀ i, 49 ≤ i → i ≤ 63 → (2 ^ 48).testBit i = (2 ^ 48).testBit 48) :=
  have h := uvm_address_get_canonical_form_low_bits (2 ^ 48) (by decide)
  ⟨by decide, h.1, h.2.2⟩

/-! ## Sum of the first integers -/

theorem sum_0_to_n_mul_two : ∀ n, sum_0_to_n n * 2 = n * (n + 1)
  | 0 => rfl
  | n + 1 => by
    have ih := sum_0_to_n_mul_two n
    rw [sum_0_to_n, Nat.add_mul, ih]
    ring

/-- C18: for every `n` such that `n * (n + 1)` does not overflow the operand
type, `SUM_FROM_0_TO_N(n) = (n * (n + 1)) / 2` equals the sum
`0 + 1 + ... + n` exactly: the product is even, so the division by 2 does not
truncate. -/
theorem SUM_FROM_0_TO_N_eq_sum (w n : Nat) (h : n * (n + 1) < 2 ^ w) :
    SUM_FROM_0_TO_N w n = sum_0_to_n n ∧
    SUM_FROM_0_TO_N w n * 2 = n * (n + 1) ∧
    n * (n + 1) % 2 = 0 := by
  have hs := sum_0_to_n_mul_two n
  have hval : SUM_FROM_0_TO_N w n = n * (n + 1) / 2 := by
    unfold SUM_FROM_0_TO_N umul uadd
    rcases Nat.eq_zero_or_pos n with h0 | hpos
    · subst h0
      simp [wrap]
    · have h1 : n + 1 ≤ n * (n + 1) := Nat.le_mul_of_pos_left (n + 1) hpos
      have hn1 : n + 1 < 2 ^ w := Nat.lt_of_le_of_lt h1 h
      have hn : n < 2 ^ w := by omega
      have h2 : 1 < 2 ^ w := by omega
      rw [wrap_of_lt hn, wrap_of_lt h2, Nat.mod_eq_of_lt hn1, wrap_of_lt hn1,
        Nat.mod_eq_of_lt h]
  rw [hval]
  refine ⟨by omega, by omega, by omega⟩

/-- Witness of C18 at `n = 100` on a 64-bit operand. -/
theorem SUM_FROM_0_TO_N_eq_sum_witness :
    100 * (100 + 1) < 2 ^ 64 ∧ SUM_FROM_0_TO_N 64 100 = sum_0_to_n 100 ∧
    SUM_FROM_0_TO_N 64 100 * 2 = 100 * (100 + 1) ∧ 100 * (100 + 1) % 2 = 0 :=
  ⟨by decide, SUM_FROM_0_TO_N_eq_sum 64 100 (by decide)⟩

end UvmCommon
